import Mathlib

/-!
Verification of the claude-hybrid-router proxy against its specification.

This file shallowly embeds the Go source of the repository:
JSON values (the `map[string]interface{}` / `interface{}` dynamic values
used throughout the source), the routing-marker detector
(`detectLocalRoute`), the JSON repairer (`FixJSON`), the transform chain
(`TransformChain`), the deepseek transformer, the error classifier
(`ClassifyError`), the MITM certificate cache (`CertCache.GetTLSConfig`),
and the SSE stream translator (`StreamTranslator.TranslateStream`).

Go operates on bytes; the embedding operates on Lean `Char`/`String`.
All bytes the relevant code branches on are ASCII, where the two coincide.
-/

namespace ClaudeHybrid

/-- Dynamic JSON value, mirroring Go's decoding of `interface{}`:
objects become maps (modelled as association lists in which a key occurs
at most once, later duplicate keys having overwritten earlier ones exactly
as assignment into `map[string]interface{}` does), arrays become lists,
numbers are kept as their raw source token (Go decodes to float64; no
claim inspects numeric formatting). -/
inductive Json where
  | null : Json
  | bool (b : Bool) : Json
  | num (raw : String) : Json
  | str (s : String) : Json
  | arr (elems : List Json) : Json
  | obj (fields : List (String × Json)) : Json
  deriving Repr

/-- Lookup of a key in an object's field list: the value stored in the Go map. -/
def objLookup (fields : List (String × Json)) (k : String) : Option Json :=
  match fields with
  | [] => none
  | (k', v) :: rest => if k' = k then some v else objLookup rest k

/-- Assignment `m[k] = v` into a Go map modelled on the association list:
replaces the binding if the key is present, appends it otherwise. -/
def objInsert (fields : List (String × Json)) (k : String) (v : Json) :
    List (String × Json) :=
  match fields with
  | [] => [(k, v)]
  | (k', v') :: rest =>
      if k' = k then (k', v) :: rest else (k', v') :: objInsert rest k v

/-- Deletion `delete(m, k)` from a Go map modelled on the association list. -/
def objDelete (fields : List (String × Json)) (k : String) :
    List (String × Json) :=
  match fields with
  | [] => []
  | (k', v') :: rest =>
      if k' = k then rest else (k', v') :: objDelete rest k

/-- JSON whitespace accepted by Go's `encoding/json` scanner. -/
def isJsonWs (c : Char) : Bool :=
  c = ' ' || c = '\t' || c = '\n' || c = '\r'

/-- Drop leading JSON whitespace. -/
def skipWs (cs : List Char) : List Char :=
  match cs with
  | [] => []
  | c :: rest => if isJsonWs c then skipWs rest else c :: rest

/-- Hex digit value, used when decoding string escapes. -/
def hexVal (c : Char) : Option Nat :=
  if '0' ≤ c ∧ c ≤ '9' then some (c.toNat - '0'.toNat)
  else if 'a' ≤ c ∧ c ≤ 'f' then some (c.toNat - 'a'.toNat + 10)
  else if 'A' ≤ c ∧ c ≤ 'F' then some (c.toNat - 'A'.toNat + 10)
  else none

/-- Decode a `\uXXXX` escape: the four hex digits after `\u`. -/
def hex4 (cs : List Char) : Option (Nat × List Char) :=
  match cs with
  | a :: b :: c :: d :: rest =>
      match hexVal a, hexVal b, hexVal c, hexVal d with
      | some x, some y, some z, some w => some (((x * 16 + y) * 16 + z) * 16 + w, rest)
      | _, _, _, _ => none
  | _ => none

/-- Decode the body of a JSON string literal after the opening quote,
following Go's `encoding/json` unquoting: standard escapes, `\uXXXX`
with surrogate-pair combination, lone surrogates replaced by U+FFFD,
unescaped control characters rejected. Returns the decoded text and
the input following the closing quote. Fuel-driven recursion; each step
consumes at least one input character, so `cs.length` fuel suffices. -/
def parseStringBodyF (fuel : Nat) (cs : List Char) : Option (List Char × List Char) :=
  match fuel, cs with
  | 0, _ => none
  | _, [] => none
  | fuel + 1, c :: rest =>
    if c = '"' then
      some ([], rest)
    else if c = '\\' then
      match rest with
      | [] => none
      | e :: rest' =>
        if e = 'u' then
          match hex4 rest' with
          | none => none
          | some (n, rest'') =>
            if 0xD800 ≤ n ∧ n ≤ 0xDBFF then
              -- high surrogate: try to combine with a following \uXXXX low surrogate
              match rest'' with
              | '\\' :: 'u' :: rest3 =>
                match hex4 rest3 with
                | some (m, rest4) =>
                  if 0xDC00 ≤ m ∧ m ≤ 0xDFFF then
                    match parseStringBodyF fuel rest4 with
                    | some (tl, k) =>
                        some (Char.ofNat (0x10000 + (n - 0xD800) * 0x400 + (m - 0xDC00)) :: tl, k)
                    | none => none
                  else
                    match parseStringBodyF fuel rest'' with
                    | some (tl, k) => some (Char.ofNat 0xFFFD :: tl, k)
                    | none => none
                | none =>
                  match parseStringBodyF fuel rest'' with
                  | some (tl, k) => some (Char.ofNat 0xFFFD :: tl, k)
                  | none => none
              | _ =>
                match parseStringBodyF fuel rest'' with
                | some (tl, k) => some (Char.ofNat 0xFFFD :: tl, k)
                | none => none
            else if 0xDC00 ≤ n ∧ n ≤ 0xDFFF then
              match parseStringBodyF fuel rest'' with
              | some (tl, k) => some (Char.ofNat 0xFFFD :: tl, k)
              | none => none
            else
              match parseStringBodyF fuel rest'' with
              | some (tl, k) => some (Char.ofNat n :: tl, k)
              | none => none
        else
          let dec : Option Char :=
            if e = '"' then some '"'
            else if e = '\\' then some '\\'
            else if e = '/' then some '/'
            else if e = 'b' then some (Char.ofNat 8)
            else if e = 'f' then some (Char.ofNat 12)
            else if e = 'n' then some '\n'
            else if e = 'r' then some '\r'
            else if e = 't' then some '\t'
            else none
          match dec with
          | none => none
          | some d =>
            match parseStringBodyF fuel rest' with
            | some (tl, k) => some (d :: tl, k)
            | none => none
    else if c.toNat < 0x20 then
      none
    else
      match parseStringBodyF fuel rest with
      | some (tl, k) => some (c :: tl, k)
      | none => none

/-- A decimal digit. -/
def isDigit (c : Char) : Bool := '0' ≤ c && c ≤ '9'

/-- Lex a JSON number token per the grammar Go's scanner accepts:
`-? (0 | [1-9][0-9]*) (. [0-9]+)? ([eE] [+-]? [0-9]+)?`.
Returns the raw token and the rest of the input. -/
def lexNumber (cs : List Char) : Option (List Char × List Char) :=
  let (neg, cs₁) :=
    match cs with
    | '-' :: rest => (['-'], rest)
    | _ => (([] : List Char), cs)
  match cs₁ with
  | [] => none
  | c :: rest =>
    if c = '0' then
      let (frac, cs₂) := lexFrac rest
      match frac with
      | none => none
      | some f => some (neg ++ [c] ++ f, cs₂)
    else if isDigit c then
      let ds := rest.takeWhile isDigit
      let rest' := rest.drop ds.length
      let (frac, cs₂) := lexFrac rest'
      match frac with
      | none => none
      | some f => some (neg ++ [c] ++ ds ++ f, cs₂)
    else none
where
  /-- Optional fraction and exponent parts; `none` marks a malformed tail. -/
  lexFrac (cs : List Char) : Option (List Char) × List Char :=
    let (fr, cs₁) :=
      match cs with
      | '.' :: rest =>
        let ds := rest.takeWhile isDigit
        if ds.isEmpty then ((none : Option (List Char)), cs)
        else (some ('.' :: ds), rest.drop ds.length)
      | _ => (some [], cs)
    match fr with
    | none => (none, cs)
    | some f =>
      match cs₁ with
      | e :: rest =>
        if e = 'e' || e = 'E' then
          let (sgn, rest') :=
            match rest with
            | s :: r => if s = '+' || s = '-' then ([s], r) else (([] : List Char), rest)
            | [] => ([], rest)
          let ds := rest'.takeWhile isDigit
          if ds.isEmpty then (none, cs)
          else (some (f ++ [e] ++ sgn ++ ds), rest'.drop ds.length)
        else (some f, cs₁)
      | [] => (some f, cs₁)

mutual

/-- Parse one JSON value (after leading whitespace), returning the value and
the remaining input; mirrors Go's `encoding/json` decoding of `interface{}`.
Objects are decoded by repeated map assignment, so a duplicate key
overwrites the earlier binding. Fuel-driven; `2 * cs.length + 8` suffices. -/
def parseVal (fuel : Nat) (cs : List Char) : Option (Json × List Char) :=
  match fuel with
  | 0 => none
  | fuel + 1 =>
    match skipWs cs with
    | [] => none
    | c :: rest =>
      if c = 'n' then
        match rest with
        | 'u' :: 'l' :: 'l' :: rest' => some (.null, rest')
        | _ => none
      else if c = 't' then
        match rest with
        | 'r' :: 'u' :: 'e' :: rest' => some (.bool true, rest')
        | _ => none
      else if c = 'f' then
        match rest with
        | 'a' :: 'l' :: 's' :: 'e' :: rest' => some (.bool false, rest')
        | _ => none
      else if c = '"' then
        match parseStringBodyF rest.length rest with
        | some (txt, rest') => some (.str ⟨txt⟩, rest')
        | none => none
      else if c = '[' then
        match skipWs rest with
        | ']' :: rest' => some (.arr [], rest')
        | _ => parseElems fuel rest []
      else if c = Char.ofNat 0x7b then
        match skipWs rest with
        | r :: rest' =>
          if r = Char.ofNat 0x7d then some (.obj [], rest')
          else parseMembers fuel rest []
        | [] => none
      else
        match lexNumber (c :: rest) with
        | some (tok, rest') => some (.num ⟨tok⟩, rest')
        | none => none

/-- Parse the elements of a non-empty JSON array (after `[`). -/
def parseElems (fuel : Nat) (cs : List Char) (acc : List Json) : Option (Json × List Char) :=
  match fuel with
  | 0 => none
  | fuel + 1 =>
    match parseVal fuel cs with
    | none => none
    | some (v, rest) =>
      match skipWs rest with
      | ',' :: rest' => parseElems fuel rest' (acc ++ [v])
      | ']' :: rest' => some (.arr (acc ++ [v]), rest')
      | _ => none

/-- Parse the members of a non-empty JSON object (after the opening brace). -/
def parseMembers (fuel : Nat) (cs : List Char) (acc : List (String × Json)) :
    Option (Json × List Char) :=
  match fuel with
  | 0 => none
  | fuel + 1 =>
    match skipWs cs with
    | '"' :: rest =>
      match parseStringBodyF rest.length rest with
      | none => none
      | some (key, rest') =>
        match skipWs rest' with
        | ':' :: rest'' =>
          match parseVal fuel rest'' with
          | none => none
          | some (v, rest3) =>
            let acc' := objInsert acc ⟨key⟩ v
            match skipWs rest3 with
            | ',' :: rest4 => parseMembers fuel rest4 acc'
            | r :: rest4 =>
              if r = Char.ofNat 0x7d then some (.obj acc', rest4) else none
            | [] => none
        | _ => none
    | _ => none

end

/-- Parse a complete JSON text: one value with only whitespace around it.
Both `json.Unmarshal` and `json.Valid` reject trailing non-space input. -/
def parseJsonText (s : String) : Option Json :=
  match parseVal (2 * s.length + 8) s.data with
  | some (v, rest) => if skipWs rest = [] then some v else none
  | none => none

/-- Go's `json.Valid`: the bytes form one complete JSON value. -/
def jsonValid (s : String) : Bool :=
  (parseJsonText s).isSome

/-- Go's `json.Unmarshal(body, &data)` with `data : map[string]interface{}`:
parses the body and additionally requires the top-level value to be an
object. -/
def unmarshalObject (s : String) : Option (List (String × Json)) :=
  match parseJsonText s with
  | some (.obj fields) => some fields
  | _ => none

/-- Hex digit character for an escape sequence (lowercase, as Go emits). -/
def hexDigit (n : Nat) : Char :=
  if n < 10 then Char.ofNat ('0'.toNat + n)
  else Char.ofNat ('a'.toNat + (n - 10))

/-- Escape one character of a string the way Go's `json.Marshal` does
(HTML escaping on, the default): quote, backslash, control characters,
`<`, `>`, `&`, and U+2028/U+2029. -/
def goEscapeChar (c : Char) : List Char :=
  if c = '"' then ['\\', '"']
  else if c = '\\' then ['\\', '\\']
  else if c = '\n' then ['\\', 'n']
  else if c = '\r' then ['\\', 'r']
  else if c = '\t' then ['\\', 't']
  else if c.toNat < 0x20 then
    ['\\', 'u', '0', '0', hexDigit (c.toNat / 16), hexDigit (c.toNat % 16)]
  else if c = '<' then ['\\', 'u', '0', '0', '3', 'c']
  else if c = '>' then ['\\', 'u', '0', '0', '3', 'e']
  else if c = '&' then ['\\', 'u', '0', '0', '2', '6']
  else if c.toNat = 0x2028 then ['\\', 'u', '2', '0', '2', '8']
  else if c.toNat = 0x2029 then ['\\', 'u', '2', '0', '2', '9']
  else [c]

/-- Serialize a string literal as Go's `json.Marshal` does. -/
def goQuote (s : String) : String :=
  ⟨'"' :: (s.data.flatMap goEscapeChar) ++ ['"']⟩

/-- Lexicographic order on character lists by code point; on UTF-8 byte
strings this agrees with Go's byte-wise string order. -/
def charListLe : List Char → List Char → Bool
  | [], _ => true
  | _ :: _, [] => false
  | a :: as, b :: bs =>
      if a.toNat < b.toNat then true
      else if b.toNat < a.toNat then false
      else charListLe as bs

/-- String order used to sort map keys, as Go's `json.Marshal` does. -/
def strLe (a b : String) : Bool :=
  charListLe a.data b.data

/-- Insert a key/value pair into a list sorted by key. -/
def sortInsert (p : String × Json) (l : List (String × Json)) :
    List (String × Json) :=
  match l with
  | [] => [p]
  | q :: rest => if strLe p.1 q.1 then p :: q :: rest else q :: sortInsert p rest

/-- Sort object fields by key, as Go's `json.Marshal` does for maps. -/
def sortFields (l : List (String × Json)) : List (String × Json) :=
  match l with
  | [] => []
  | p :: rest => sortInsert p (sortFields rest)

mutual

/-- Nesting depth of a JSON value, used as serializer fuel. -/
def jsonDepth : Json → Nat
  | .null => 1
  | .bool _ => 1
  | .num _ => 1
  | .str _ => 1
  | .arr elems => 1 + jsonDepthArr elems
  | .obj fields => 1 + jsonDepthObj fields

/-- Maximum depth over array elements. -/
def jsonDepthArr : List Json → Nat
  | [] => 0
  | v :: rest => max (jsonDepth v) (jsonDepthArr rest)

/-- Maximum depth over object members. -/
def jsonDepthObj : List (String × Json) → Nat
  | [] => 0
  | (_, v) :: rest => max (jsonDepth v) (jsonDepthObj rest)

end

/-- Fuel-driven serializer core; the fuel bounds the nesting depth, and
`jsonDepth j` always suffices (each level strictly shrinks the depth).
Structural recursion keeps it kernel-reducible, so witnesses evaluate. -/
def goMarshalF : Nat → Json → String
  | 0, _ => ""
  | _ + 1, .null => "null"
  | _ + 1, .bool true => "true"
  | _ + 1, .bool false => "false"
  | _ + 1, .num raw => raw
  | _ + 1, .str s => goQuote s
  | fuel + 1, .arr elems =>
      "[" ++ String.intercalate "," (elems.map (goMarshalF fuel)) ++ "]"
  | fuel + 1, .obj fields =>
      String.mk [Char.ofNat 0x7b] ++
        String.intercalate ","
          ((sortFields fields).map (fun kv => goQuote kv.1 ++ ":" ++ goMarshalF fuel kv.2)) ++
        String.mk [Char.ofNat 0x7d]

/-- Go's `json.Marshal` on a decoded dynamic value: map keys sorted, no
extra whitespace, strings escaped with the default HTML escaping.
Numbers re-emit their raw token (see `Json.num`). -/
def goMarshal (j : Json) : String :=
  goMarshalF (jsonDepth j) j

/-- The literal part of the routing-marker regular expression
`<!-- @proxy-local-route:af83e9 model=(\S+) -->` before the capture group. -/
def markerLit : List Char := "<!-- @proxy-local-route:af83e9 model=".data

/-- Character class `\s` of Go's regexp package (ASCII): tab, newline,
form feed, carriage return, space. `\S` is its complement. -/
def isReSpace (c : Char) : Bool :=
  c = '\t' || c = '\n' || c = Char.ofNat 0x0c || c = '\r' || c = ' '

/-- Try to match the routing-marker regex at the start of the input.
`(\S+)` is greedy: it takes the maximal run of non-space characters after
`model=`; shortening the run cannot help, because the literal ` -->` that
must follow starts with a space and every character given back is
non-space. On success returns the captured label and the input that
follows the whole match. -/
def markerMatchAt (cs : List Char) : Option (String × List Char) :=
  if markerLit.isPrefixOf cs then
    let after := cs.drop markerLit.length
    let lab := after.takeWhile (fun c => !isReSpace c)
    if lab.isEmpty then none
    else
      let rest := after.drop lab.length
      if " -->".data.isPrefixOf rest then some (⟨lab⟩, rest.drop 4)
      else none
  else none

/-- Leftmost match of the routing-marker regex
(`routeMarkerRE.FindStringSubmatch`): the captured model label, if any. -/
def markerFindAux (cs : List Char) : Option String :=
  match cs with
  | [] => none
  | _ :: rest =>
    match markerMatchAt cs with
    | some (lab, _) => some lab
    | none => markerFindAux rest

/-- The capture of `routeMarkerRE.FindStringSubmatch(s)`, if the marker
occurs in `s`. -/
def markerFind (s : String) : Option String :=
  markerFindAux s.data

/-- Replace every (leftmost, non-overlapping) match of the marker regex by
the empty string: `routeMarkerRE.ReplaceAllString(s, "")`. Fuel-driven;
every step consumes at least one character, so length fuel suffices. -/
def markerReplaceAllAux (fuel : Nat) (cs : List Char) : List Char :=
  match fuel with
  | 0 => cs
  | fuel + 1 =>
    match cs with
    | [] => []
    | c :: rest =>
      match markerMatchAt cs with
      | some (_, rest') => markerReplaceAllAux fuel rest'
      | none => c :: markerReplaceAllAux fuel rest

/-- Go expression `routeMarkerRE.ReplaceAllString(s, "")`. -/
def markerReplaceAll (s : String) : String :=
  ⟨markerReplaceAllAux s.length s.data⟩

/-- The proxy package's own `trimSpace` helper: strips leading and
trailing space, tab, newline and carriage return bytes. -/
def trimSpace (s : String) : String :=
  let isSp (c : Char) : Bool := c = ' ' || c = '\t' || c = '\n' || c = '\r'
  ⟨((s.data.dropWhile isSp).reverse.dropWhile isSp).reverse⟩

/-- Scan the blocks of a `system` array for the first block that is an
object with a string `text` field matching the marker; strip the marker
from that block. Mirrors the `case []interface{}` loop of
`detectLocalRoute`. Returns the label and the updated block list. -/
def scanSystemBlocks (blocks : List Json) : Option (String × List Json) :=
  match blocks with
  | [] => none
  | block :: rest =>
    match block with
    | .obj bm =>
      match objLookup bm "text" with
      | some (.str text) =>
        match markerFind text with
        | some lab =>
            some (lab, .obj (objInsert bm "text"
              (.str (trimSpace (markerReplaceAll text)))) :: rest)
        | none =>
          match scanSystemBlocks rest with
          | some (lab, rest') => some (lab, block :: rest')
          | none => none
      | _ =>
        match scanSystemBlocks rest with
        | some (lab, rest') => some (lab, block :: rest')
        | none => none
    | _ =>
      match scanSystemBlocks rest with
      | some (lab, rest') => some (lab, block :: rest')
      | none => none

/-- Go function `detectLocalRoute(body)` (package proxy): checks the
`system` field of a JSON body for a routing marker. Returns the model
label and the body with the marker stripped, or `""` and the original
body unchanged. -/
def detectLocalRoute (body : String) : String × String :=
  if body.length = 0 then ("", body)
  else
    match unmarshalObject body with
    | none => ("", body)
    | some data =>
      match objLookup data "system" with
      | none => ("", body)
      | some .null => ("", body)
      | some (.str s) =>
        match markerFind s with
        | some lab =>
            (lab, goMarshal (.obj (objInsert data "system"
              (.str (trimSpace (markerReplaceAll s))))))
        | none => ("", body)
      | some (.arr blocks) =>
        match scanSystemBlocks blocks with
        | some (lab, blocks') =>
            (lab, goMarshal (.obj (objInsert data "system" (.arr blocks'))))
        | none => ("", body)
      | some _ => ("", body)

theorem objLookup_objInsert_self (l : List (String × Json)) (k : String) (v : Json) :
    objLookup (objInsert l k v) k = some v := by
  induction l with
  | nil => simp [objInsert, objLookup]
  | cons p rest ih =>
      obtain ⟨k', v'⟩ := p
      by_cases h : k' = k
      · simp [objInsert, objLookup, h]
      · simp [objInsert, objLookup, h, ih]

theorem objLookup_objInsert_ne (l : List (String × Json)) (k k' : String) (v : Json)
    (h : k' ≠ k) : objLookup (objInsert l k v) k' = objLookup l k' := by
  induction l with
  | nil =>
      simp only [objInsert, objLookup]
      rw [if_neg (show ¬k = k' from fun hh => h hh.symm)]
  | cons p rest ih =>
      obtain ⟨k₀, v₀⟩ := p
      simp only [objInsert]
      by_cases h₀ : k₀ = k
      · rw [if_pos h₀]
        subst h₀
        simp only [objLookup]
        rw [if_neg (show ¬k₀ = k' from fun hh => h hh.symm)]
        rw [if_neg (show ¬k₀ = k' from fun hh => h hh.symm)]
      · rw [if_neg h₀]
        simp only [objLookup]
        by_cases h₁ : k₀ = k'
        · rw [if_pos h₁, if_pos h₁]
        · rw [if_neg h₁, if_neg h₁]
          exact ih

/-- The search `detectLocalRoute` performs on the decoded `system` value:
the marker regex on a string, the per-block `text` scan on an array, and
no search at all on any other shape. -/
def systemHasMarker : Json → Bool
  | .str s => (markerFind s).isSome
  | .arr blocks => (scanSystemBlocks blocks).isSome
  | _ => false

/-- C1: for every request body whose JSON `system` field (string or array
of blocks) does not contain the routing marker — regardless of what
appears inside `messages` or any other field — `detectLocalRoute` returns
the empty label and the body byte-for-byte unchanged. -/
theorem detectLocalRoute_no_marker_passthrough (body : String)
    (data : List (String × Json)) (v : Json)
    (hparse : unmarshalObject body = some data)
    (hsys : objLookup data "system" = some v)
    (hmark : systemHasMarker v = false) :
    detectLocalRoute body = ("", body) := by
  by_cases h0 : body.length = 0
  · simp [detectLocalRoute, h0]
  · cases v with
    | str s =>
        have : markerFind s = none := by
          simpa [systemHasMarker, Option.isSome_iff_exists] using hmark
        simp [detectLocalRoute, h0, hparse, hsys, this]
    | arr blocks =>
        have : scanSystemBlocks blocks = none := by
          simpa [systemHasMarker, Option.isSome_iff_exists] using hmark
        simp [detectLocalRoute, h0, hparse, hsys, this]
    | null => simp [detectLocalRoute, h0, hparse, hsys]
    | bool b => simp [detectLocalRoute, h0, hparse, hsys]
    | num raw => simp [detectLocalRoute, h0, hparse, hsys]
    | obj fields => simp [detectLocalRoute, h0, hparse, hsys]

/-- Concrete body for the C1 witness: the marker text sits inside
`messages`, while `system` is a plain string. -/
def bodyNoMarker : String :=
  "\x7b\"system\":\"You are helpful\",\"messages\":[\x7b\"role\":\"user\",\"content\":\"<!-- @proxy-local-route:af83e9 model=x --> hello\"\x7d]\x7d"

/-- Decoded object of `bodyNoMarker`. -/
def dataNoMarker : List (String × Json) :=
  [("system", .str "You are helpful"),
   ("messages", .arr [.obj [("role", .str "user"),
     ("content", .str "<!-- @proxy-local-route:af83e9 model=x --> hello")]])]

/-- Witness for C1 at a concrete input: a marker quoted inside `messages`
is ignored and the body passes through unchanged. -/
theorem detectLocalRoute_no_marker_passthrough_witness :
    unmarshalObject bodyNoMarker = some dataNoMarker ∧
    objLookup dataNoMarker "system" = some (.str "You are helpful") ∧
    systemHasMarker (.str "You are helpful") = false ∧
    detectLocalRoute bodyNoMarker = ("", bodyNoMarker) :=
  ⟨rfl, rfl, rfl,
    detectLocalRoute_no_marker_passthrough bodyNoMarker dataNoMarker
      (.str "You are helpful") rfl rfl rfl⟩

/-- C2: for a body whose `system` string matches the routing marker,
`detectLocalRoute` returns the captured label together with the
re-serialized body in which `system` is the original string with every
marker occurrence replaced by the empty string and surrounding whitespace
trimmed; every other field of the re-serialized object is unchanged. -/
theorem detectLocalRoute_marker_strip (body label s : String)
    (data : List (String × Json))
    (hparse : unmarshalObject body = some data)
    (hsys : objLookup data "system" = some (.str s))
    (hfind : markerFind s = some label) :
    detectLocalRoute body =
      (label, goMarshal (.obj (objInsert data "system"
        (.str (trimSpace (markerReplaceAll s)))))) ∧
    objLookup (objInsert data "system" (.str (trimSpace (markerReplaceAll s))))
      "system" = some (.str (trimSpace (markerReplaceAll s))) ∧
    ∀ k, k ≠ "system" →
      objLookup (objInsert data "system" (.str (trimSpace (markerReplaceAll s)))) k
        = objLookup data k := by
  refine ⟨?_, objLookup_objInsert_self .., fun k hk => objLookup_objInsert_ne _ _ _ _ hk⟩
  by_cases h0 : body.length = 0
  · exfalso
    have hb : body = "" := by
      cases body with
      | mk l =>
          cases l with
          | nil => rfl
          | cons c cs => simp [String.length] at h0
    rw [hb] at hparse
    exact absurd hparse (by simp [unmarshalObject, parseJsonText, parseVal, skipWs])
  · simp [detectLocalRoute, h0, hparse, hsys, hfind]

/-- The system string of scenario S1. -/
def sysS1 : String := "<!-- @proxy-local-route:af83e9 model=fast --> hi"

/-- Concrete body for the C2 witness (scenario S1 of the specification). -/
def bodyS1 : String :=
  "\x7b\"system\":\"<!-- @proxy-local-route:af83e9 model=fast --> hi\",\"messages\":[]\x7d"

/-- Decoded object of `bodyS1`. -/
def dataS1 : List (String × Json) :=
  [("system", .str sysS1), ("messages", .arr [])]

/-- Witness for C2 at scenario S1: label `fast` is captured and the
re-serialized body carries `system = "hi"` with `messages` untouched. -/
theorem detectLocalRoute_marker_strip_witness :
    unmarshalObject bodyS1 = some dataS1 ∧
    markerFind sysS1 = some "fast" ∧
    trimSpace (markerReplaceAll sysS1) = "hi" ∧
    detectLocalRoute bodyS1 =
      ("fast", "\x7b\"messages\":[],\"system\":\"hi\"\x7d") :=
  ⟨rfl, rfl, rfl,
    ((detectLocalRoute_marker_strip bodyS1 "fast" sysS1 dataS1 rfl rfl rfl).1).trans rfl⟩

/-- Go method `deepseekTransform.TransformRequest` from
`internal/translate/transform_deepseek.go`: if `max_completion_tokens` is
present, copy its value to `max_tokens` and delete the old key; the error
result is always nil, so the embedding returns the updated object.
(The older vendored copy under `claude-hybrid/internal/translate` instead
caps `max_tokens` at 8192; the claim and the specification describe the
current tree, embedded here.) -/
def deepseekTransformRequest (req : List (String × Json)) : List (String × Json) :=
  match objLookup req "max_completion_tokens" with
  | some v => objDelete (objInsert req "max_tokens" v) "max_completion_tokens"
  | none => req

theorem objLookup_objDelete_ne (l : List (String × Json)) (k k' : String)
    (h : k' ≠ k) : objLookup (objDelete l k) k' = objLookup l k' := by
  induction l with
  | nil => simp [objDelete, objLookup]
  | cons p rest ih =>
      obtain ⟨k₀, v₀⟩ := p
      simp only [objDelete]
      by_cases h₀ : k₀ = k
      · rw [if_pos h₀]
        subst h₀
        simp only [objLookup]
        rw [if_neg (show ¬k₀ = k' from fun hh => h hh.symm)]
      · rw [if_neg h₀]
        simp only [objLookup]
        by_cases h₁ : k₀ = k'
        · rw [if_pos h₁, if_pos h₁]
        · rw [if_neg h₁, if_neg h₁]
          exact ih

theorem objLookup_of_not_mem (l : List (String × Json)) (k : String)
    (h : k ∉ l.map Prod.fst) : objLookup l k = none := by
  induction l with
  | nil => simp [objLookup]
  | cons p rest ih =>
      obtain ⟨k₀, v₀⟩ := p
      simp only [objLookup]
      have h₀ : k₀ ≠ k := fun hh => h (by simp [hh])
      rw [if_neg h₀]
      exact ih (fun hx => h (by simp; right; simpa using hx))

theorem objLookup_objDelete_self (l : List (String × Json)) (k : String)
    (hnodup : (l.map Prod.fst).Nodup) :
    objLookup (objDelete l k) k = none := by
  induction l with
  | nil => simp [objDelete, objLookup]
  | cons p rest ih =>
      obtain ⟨k₀, v₀⟩ := p
      simp only [List.map, List.nodup_cons] at hnodup
      simp only [objDelete]
      by_cases h₀ : k₀ = k
      · rw [if_pos h₀]
        subst h₀
        exact objLookup_of_not_mem rest k₀ hnodup.1
      · rw [if_neg h₀]
        simp only [objLookup]
        rw [if_neg h₀]
        exact ih hnodup.2

theorem mem_keys_objInsert (l : List (String × Json)) (k v x)
    (hx : x ∈ (objInsert l k v).map Prod.fst) :
    x ∈ l.map Prod.fst ∨ x = k := by
  induction l with
  | nil =>
      simp [objInsert] at hx
      exact Or.inr hx
  | cons p rest ih =>
      obtain ⟨k₀, v₀⟩ := p
      simp only [objInsert] at hx
      by_cases h₀ : k₀ = k
      · rw [if_pos h₀] at hx
        simp at hx
        rcases hx with hx | hx
        · exact Or.inl (by simp [hx])
        · exact Or.inl (by simp; right; exact hx)
      · rw [if_neg h₀] at hx
        simp at hx
        rcases hx with hx | hx
        · exact Or.inl (by simp [hx])
        · rcases ih (by simpa using hx) with h | h
          · exact Or.inl (by simp; right; simpa using h)
          · exact Or.inr h

theorem nodup_keys_objInsert (l : List (String × Json)) (k : String) (v : Json)
    (h : (l.map Prod.fst).Nodup) : ((objInsert l k v).map Prod.fst).Nodup := by
  induction l with
  | nil => simp [objInsert]
  | cons p rest ih =>
      obtain ⟨k₀, v₀⟩ := p
      simp only [List.map, List.nodup_cons] at h
      simp only [objInsert]
      by_cases h₀ : k₀ = k
      · rw [if_pos h₀]
        simp only [List.map, List.nodup_cons]
        exact ⟨by simpa using h.1, h.2⟩
      · rw [if_neg h₀]
        simp only [List.map, List.nodup_cons]
        refine ⟨fun hx => ?_, ih h.2⟩
        rcases mem_keys_objInsert rest k v k₀ (by simpa using hx) with hm | hm
        · exact h.1 (by simpa using hm)
        · exact h₀ hm

/-- C8: the deepseek transform renames `max_completion_tokens` to
`max_tokens` — copying the value, deleting the old key, touching nothing
else — and is the identity on requests that lack the field. The key-nodup
hypothesis is the Go map invariant (a key occurs at most once). -/
theorem deepseekTransformRequest_rename (req : List (String × Json))
    (hnodup : (req.map Prod.fst).Nodup) :
    (∀ v, objLookup req "max_completion_tokens" = some v →
      objLookup (deepseekTransformRequest req) "max_tokens" = some v ∧
      objLookup (deepseekTransformRequest req) "max_completion_tokens" = none ∧
      ∀ k, k ≠ "max_tokens" → k ≠ "max_completion_tokens" →
        objLookup (deepseekTransformRequest req) k = objLookup req k) ∧
    (objLookup req "max_completion_tokens" = none →
      deepseekTransformRequest req = req) := by
  constructor
  · intro v hv
    simp only [deepseekTransformRequest, hv]
    refine ⟨?_, ?_, ?_⟩
    · rw [objLookup_objDelete_ne _ _ _ (by decide)]
      exact objLookup_objInsert_self ..
    · exact objLookup_objDelete_self _ _ (nodup_keys_objInsert _ _ _ hnodup)
    · intro k hk₁ hk₂
      rw [objLookup_objDelete_ne _ _ _ hk₂, objLookup_objInsert_ne _ _ _ _ hk₁]
  · intro hv
    simp [deepseekTransformRequest, hv]

/-- Witness for C8: a request bearing `max_completion_tokens` is renamed,
and a request without it is untouched. -/
theorem deepseekTransformRequest_rename_witness :
    deepseekTransformRequest [("max_completion_tokens", .num "65536"),
        ("model", .str "m")] =
      [("model", .str "m"), ("max_tokens", .num "65536")] ∧
    deepseekTransformRequest [("model", .str "m")] = [("model", .str "m")] :=
  ⟨rfl,
    (deepseekTransformRequest_rename [("model", .str "m")] (by simp)).2 rfl⟩

/-- Substring scan over character lists. -/
def listContains (s sub : List Char) : Bool :=
  if sub.isPrefixOf s then true
  else
    match s with
    | [] => false
    | _ :: rest => listContains rest sub

/-- Go's `strings.Contains(s, sub)`: case-sensitive substring test. -/
def goContains (s sub : String) : Bool :=
  listContains s.data sub.data

/-- Go function `ClassifyError` from `internal/translate/response.go`.
A Go error is modelled as `Option String`: `none` for a nil error,
`some msg` for an error whose `Error()` is `msg`. The matched substrings
are exactly those of the source: `connection refused`, `no such host`,
`dial tcp`; `deadline exceeded`, `Client.Timeout`, `context canceled`. -/
def ClassifyError (err : Option String) : String :=
  match err with
  | none => "INTERNAL"
  | some msg =>
    if goContains msg "connection refused" || goContains msg "no such host" ||
        goContains msg "dial tcp" then "CONNECTION"
    else if goContains msg "deadline exceeded" || goContains msg "Client.Timeout" ||
        goContains msg "context canceled" then "TIMEOUT"
    else "INTERNAL"

/-- Counterexample to C9 as stated: the message `"dial udp"` contains the
claimed substring `"dial"` (and none of the TIMEOUT substrings), yet
`ClassifyError` returns `"INTERNAL"`, not `"CONNECTION"`, because the
source matches the longer literal `"dial tcp"`. Likewise `"timeout"`
alone is not matched, since the source looks for `"Client.Timeout"`. -/
theorem ClassifyError_claimed_substrings_false :
    goContains "dial udp: no route" "dial" = true ∧
    ClassifyError (some "dial udp: no route") = "INTERNAL" ∧
    ClassifyError (some "dial udp: no route") ≠ "CONNECTION" ∧
    goContains "request timeout" "timeout" = true ∧
    ClassifyError (some "request timeout") = "INTERNAL" ∧
    ClassifyError (some "request timeout") ≠ "TIMEOUT" := by
  refine ⟨rfl, rfl, ?_, rfl, rfl, ?_⟩ <;> decide

/-- C9 (amended): `ClassifyError` returns `CONNECTION` exactly when the
message contains `connection refused`, `no such host` or `dial tcp`;
`TIMEOUT` when it contains `deadline exceeded`, `Client.Timeout` or
`context canceled` and none of the CONNECTION substrings; `INTERNAL`
otherwise, including for a nil error. -/
theorem ClassifyError_classification (msg : String) :
    (goContains msg "connection refused" || goContains msg "no such host" ||
        goContains msg "dial tcp" = true →
      ClassifyError (some msg) = "CONNECTION") ∧
    ((goContains msg "connection refused" || goContains msg "no such host" ||
        goContains msg "dial tcp") = false →
      (goContains msg "deadline exceeded" || goContains msg "Client.Timeout" ||
        goContains msg "context canceled") = true →
      ClassifyError (some msg) = "TIMEOUT") ∧
    ((goContains msg "connection refused" || goContains msg "no such host" ||
        goContains msg "dial tcp") = false →
      (goContains msg "deadline exceeded" || goContains msg "Client.Timeout" ||
        goContains msg "context canceled") = false →
      ClassifyError (some msg) = "INTERNAL") ∧
    ClassifyError none = "INTERNAL" := by
  refine ⟨fun h => ?_, fun h₁ h₂ => ?_, fun h₁ h₂ => ?_, rfl⟩
  · simp only [ClassifyError]
    rw [if_pos (by simpa using h)]
  · simp only [ClassifyError]
    rw [if_neg (by simp [h₁]), if_pos (by simpa using h₂)]
  · simp only [ClassifyError]
    rw [if_neg (by simp [h₁]), if_neg (by simp [h₂])]

/-- Witness for the amended C9 at concrete messages from each category. -/
theorem ClassifyError_classification_witness :
    ClassifyError (some "dial tcp 1.2.3.4:443: connect: connection refused") =
      "CONNECTION" ∧
    ClassifyError (some "context deadline exceeded") = "TIMEOUT" ∧
    ClassifyError (some "something else went wrong") = "INTERNAL" ∧
    ClassifyError none = "INTERNAL" :=
  ⟨(ClassifyError_classification
      "dial tcp 1.2.3.4:443: connect: connection refused").1 (by decide),
   (ClassifyError_classification "context deadline exceeded").2.1
      (by decide) (by decide),
   (ClassifyError_classification "something else went wrong").2.2.1
      (by decide) (by decide),
   (ClassifyError_classification "x").2.2.2⟩

/-- Unicode white space as Go's `unicode.IsSpace` defines it (the set
`strings.TrimSpace` trims). -/
def goIsSpace (c : Char) : Bool :=
  let n := c.toNat
  (9 ≤ n && n ≤ 13) || n = 32 || n = 0x85 || n = 0xA0 || n = 0x1680 ||
    (0x2000 ≤ n && n ≤ 0x200A) || n = 0x2028 || n = 0x2029 || n = 0x202F ||
    n = 0x205F || n = 0x3000

/-- Go's `strings.TrimSpace`. -/
def goTrimSpace (s : String) : String :=
  ⟨((s.data.dropWhile goIsSpace).reverse.dropWhile goIsSpace).reverse⟩

/-- One pass of `regexp.MustCompile(",\\s*" ++ close).ReplaceAllString(s, close)`
for a closing bracket character: each leftmost comma followed by regexp
space and the closer collapses to the closer alone. Fuel-driven; each
step consumes at least one character. -/
def stripCommaAux (close : Char) (fuel : Nat) (cs : List Char) : List Char :=
  match fuel with
  | 0 => cs
  | fuel + 1 =>
    match cs with
    | [] => []
    | c :: rest =>
      if c = ',' then
        let ws := rest.takeWhile isReSpace
        match rest.drop ws.length with
        | d :: rest' =>
            if d = close then close :: stripCommaAux close fuel rest'
            else c :: stripCommaAux close fuel rest
        | [] => c :: stripCommaAux close fuel rest
      else c :: stripCommaAux close fuel rest

/-- Strip trailing commas before `close`, as the Go regex replacement does. -/
def stripComma (close : Char) (s : String) : String :=
  ⟨stripCommaAux close s.length s.data⟩

/-- Go function `replaceSingleQuotes`: converts single-quoted strings to
double-quoted, tracking whether the scan is inside a double- or
single-quoted string and skipping backslash escapes inside either. -/
def replaceSingleQuotesAux (inDouble inSingle : Bool) : List Char → List Char
  | [] => []
  | c :: rest =>
    if c = '\\' && (inDouble || inSingle) then
      match rest with
      | r :: rest' => c :: r :: replaceSingleQuotesAux inDouble inSingle rest'
      | [] => [c]
    else if c = '"' && !inSingle then
      c :: replaceSingleQuotesAux (!inDouble) inSingle rest
    else if c = Char.ofNat 39 && !inDouble then
      '"' :: replaceSingleQuotesAux inDouble (!inSingle) rest
    else
      c :: replaceSingleQuotesAux inDouble inSingle rest

/-- Go function `replaceSingleQuotes` on strings. -/
def replaceSingleQuotes (s : String) : String :=
  ⟨replaceSingleQuotesAux false false s.data⟩

/-- Go function `relaxedFix`: trailing-comma removal before `}` and `]`,
then single-quote conversion. -/
def relaxedFix (s : String) : String :=
  replaceSingleQuotes (stripComma ']' (stripComma (Char.ofNat 0x7d) s))

/-- Compute the unmatched-opener stack of Go's `closeBrackets` scan:
brackets inside strings are ignored, backslash escapes inside strings are
skipped, a closer pops only a matching top. The head of the result is the
innermost pending closer. -/
def bracketStack (stack : List Char) (inString : Bool) : List Char → List Char
  | [] => stack
  | c :: rest =>
    if c = '\\' && inString then
      match rest with
      | _ :: rest' => bracketStack stack inString rest'
      | [] => stack
    else if c = '"' then bracketStack stack (!inString) rest
    else if inString then bracketStack stack inString rest
    else if c = Char.ofNat 0x7b then
      bracketStack (Char.ofNat 0x7d :: stack) inString rest
    else if c = '[' then bracketStack (']' :: stack) inString rest
    else if c = Char.ofNat 0x7d || c = ']' then
      match stack with
      | top :: stack' => if top = c then bracketStack stack' inString rest
                         else bracketStack stack inString rest
      | [] => bracketStack stack inString rest
    else bracketStack stack inString rest

/-- Go function `closeBrackets`: append the pending closers, innermost
first. -/
def closeBrackets (s : String) : String :=
  s ++ ⟨bracketStack [] false s.data⟩

/-- Go function `FixJSON` from the JSON-repair component: trim, then the
three tiers — already valid, relaxed fixups, bracket closing — falling
back to the empty object. -/
def FixJSON (s : String) : String :=
  let t := goTrimSpace s
  if t = "" then "\x7b\x7d"
  else if jsonValid t then t
  else
    let fixed := relaxedFix t
    if jsonValid fixed then fixed
    else
      let fixed2 := closeBrackets fixed
      if jsonValid fixed2 then fixed2
      else "\x7b\x7d"

/-- Counterexample to C5 as stated: the input `" \x7b\x7d"` is well-formed
JSON (`json.Valid` accepts surrounding whitespace), but `FixJSON` first
trims it, so the result differs from the input. -/
theorem FixJSON_not_identity_on_padded_json :
    jsonValid " \x7b\x7d" = true ∧
    FixJSON " \x7b\x7d" = "\x7b\x7d" ∧
    FixJSON " \x7b\x7d" ≠ " \x7b\x7d" := by
  refine ⟨rfl, rfl, ?_⟩
  intro h
  have : ("\x7b\x7d" : String) = " \x7b\x7d" := by
    calc ("\x7b\x7d" : String) = FixJSON " \x7b\x7d" := rfl
    _ = " \x7b\x7d" := h
  simp at this

/-- C5 (amended): `FixJSON` is the identity on well-formed JSON with no
surrounding whitespace, and on every input its result is valid JSON
(possibly the empty object). -/
theorem FixJSON_valid_and_identity (s : String) :
    (goTrimSpace s = s → jsonValid s = true → FixJSON s = s) ∧
    jsonValid (FixJSON s) = true := by
  constructor
  · intro htrim hvalid
    have hne : s ≠ "" := by
      intro h
      rw [h] at hvalid
      exact absurd hvalid (by decide)
    simp only [FixJSON, htrim]
    rw [if_neg hne, if_pos hvalid]
  · simp only [FixJSON]
    by_cases h0 : goTrimSpace s = ""
    · rw [if_pos h0]
      decide
    · rw [if_neg h0]
      by_cases h1 : jsonValid (goTrimSpace s) = true
      · rw [if_pos h1]
        exact h1
      · rw [if_neg h1]
        by_cases h2 : jsonValid (relaxedFix (goTrimSpace s)) = true
        · rw [if_pos h2]
          exact h2
        · rw [if_neg h2]
          by_cases h3 : jsonValid (closeBrackets (relaxedFix (goTrimSpace s))) = true
          · rw [if_pos h3]
            exact h3
          · rw [if_neg h3]
            decide

/-- Witness for the amended C5: identity on an exact valid input, and a
valid result on a malformed one. -/
theorem FixJSON_valid_and_identity_witness :
    goTrimSpace "\x7b\"a\":1\x7d" = "\x7b\"a\":1\x7d" ∧
    jsonValid "\x7b\"a\":1\x7d" = true ∧
    FixJSON "\x7b\"a\":1\x7d" = "\x7b\"a\":1\x7d" ∧
    jsonValid (FixJSON "\x7b\"a\": 1,") = true :=
  ⟨rfl, rfl,
    (FixJSON_valid_and_identity "\x7b\"a\":1\x7d").1 rfl rfl,
    (FixJSON_valid_and_identity "\x7b\"a\": 1,").2⟩

/-- A transformer, as the Go `Transformer` interface: request objects are
mutated in place and an error aborts the chain (modelled by returning the
updated object/context in `Except`); responses map bytes to bytes; a
stream chunk maps to zero, one or many chunks. `Ctx` is the mutable
`TransformContext` threaded through every call. -/
structure Transformer (Ctx : Type) where
  transformRequest : List (String × Json) → Ctx → Except String (List (String × Json) × Ctx)
  transformResponse : String → Ctx → Except String (String × Ctx)
  transformStreamChunk : String → Ctx → Except String (List String × Ctx)

/-- Go method `TransformChain.RunRequest`: each transformer's
`TransformRequest` in forward order, stopping on the first error. -/
def RunRequest {Ctx : Type} :
    List (Transformer Ctx) → List (String × Json) → Ctx →
      Except String (List (String × Json) × Ctx)
  | [], req, ctx => .ok (req, ctx)
  | t :: ts, req, ctx =>
    match t.transformRequest req ctx with
    | .error e => .error e
    | .ok (req', ctx') => RunRequest ts req' ctx'

/-- Forward runner over an already reversed transformer list; Go's
`RunResponse` iterates indices `len-1 … 0`, which is exactly a forward
pass over the reversed list. -/
def RunResponseAux {Ctx : Type} :
    List (Transformer Ctx) → String → Ctx → Except String (String × Ctx)
  | [], body, ctx => .ok (body, ctx)
  | t :: ts, body, ctx =>
    match t.transformResponse body ctx with
    | .error e => .error e
    | .ok (body', ctx') => RunResponseAux ts body' ctx'

/-- Go method `TransformChain.RunResponse`: each transformer's
`TransformResponse` in reverse order, stopping on the first error. -/
def RunResponse {Ctx : Type} (ts : List (Transformer Ctx)) (body : String)
    (ctx : Ctx) : Except String (String × Ctx) :=
  RunResponseAux ts.reverse body ctx

/-- One layer of `RunStreamChunk`: feed every chunk of the current list
through one transformer, concatenating the outputs in order (the inner
`for _, chunk := range chunks` loop with `next = append(next, result...)`). -/
def applyChunks {Ctx : Type} (t : Transformer Ctx) :
    List String → Ctx → Except String (List String × Ctx)
  | [], ctx => .ok ([], ctx)
  | c :: cs, ctx =>
    match t.transformStreamChunk c ctx with
    | .error e => .error e
    | .ok (out, ctx') =>
      match applyChunks t cs ctx' with
      | .error e => .error e
      | .ok (rest, ctx'') => .ok (out ++ rest, ctx'')

/-- Layered runner over an already reversed transformer list: each layer
consumes every chunk produced by the previous one. -/
def RunStreamAux {Ctx : Type} :
    List (Transformer Ctx) → List String → Ctx → Except String (List String × Ctx)
  | [], chunks, ctx => .ok (chunks, ctx)
  | t :: ts, chunks, ctx =>
    match applyChunks t chunks ctx with
    | .error e => .error e
    | .ok (next, ctx') => RunStreamAux ts next ctx'

/-- Layered run of a chain segment on a list of chunks (reverse order,
like the Go loop). -/
def RunStreamMany {Ctx : Type} (ts : List (Transformer Ctx))
    (chunks : List String) (ctx : Ctx) : Except String (List String × Ctx) :=
  RunStreamAux ts.reverse chunks ctx

/-- Go method `TransformChain.RunStreamChunk`: start with the single input
chunk and run the transformers in reverse order, each layer consuming all
chunks of the previous one. -/
def RunStreamChunk {Ctx : Type} (ts : List (Transformer Ctx)) (data : String)
    (ctx : Ctx) : Except String (List String × Ctx) :=
  RunStreamMany ts [data] ctx

theorem RunRequest_append {Ctx : Type} (xs ys : List (Transformer Ctx)) (req ctx) :
    RunRequest (xs ++ ys) req ctx =
      (RunRequest xs req ctx).bind fun p => RunRequest ys p.1 p.2 := by
  induction xs generalizing req ctx with
  | nil => simp [RunRequest, Except.bind]
  | cons t ts ih =>
      simp only [List.cons_append, RunRequest]
      cases t.transformRequest req ctx with
      | error e => simp [Except.bind]
      | ok p => simpa [Except.bind] using ih p.1 p.2

theorem RunResponseAux_append {Ctx : Type} (xs ys : List (Transformer Ctx)) (body ctx) :
    RunResponseAux (xs ++ ys) body ctx =
      (RunResponseAux xs body ctx).bind fun p => RunResponseAux ys p.1 p.2 := by
  induction xs generalizing body ctx with
  | nil => simp [RunResponseAux, Except.bind]
  | cons t ts ih =>
      simp only [List.cons_append, RunResponseAux]
      cases t.transformResponse body ctx with
      | error e => simp [Except.bind]
      | ok p => simpa [Except.bind] using ih p.1 p.2

theorem RunStreamAux_append {Ctx : Type} (xs ys : List (Transformer Ctx)) (chunks ctx) :
    RunStreamAux (xs ++ ys) chunks ctx =
      (RunStreamAux xs chunks ctx).bind fun p => RunStreamAux ys p.1 p.2 := by
  induction xs generalizing chunks ctx with
  | nil => simp [RunStreamAux, Except.bind]
  | cons t ts ih =>
      simp only [List.cons_append, RunStreamAux]
      cases applyChunks t chunks ctx with
      | error e => simp [Except.bind]
      | ok p => simpa [Except.bind] using ih p.1 p.2

/-- C4: chain laws of `TransformChain`. `RunRequest` composes forward —
over `xs ++ ys` it runs `xs` first; `RunResponse` and `RunStreamChunk`
compose in reverse — over `xs ++ ys` they run `ys` first, every output
chunk of the `ys` layers being fed through the `xs` layers in order; a
singleton chain is exactly its transformer; within one layer the chunk
list is processed in order with outputs concatenated in order; and the
empty chain is the identity: the request and context unchanged, the
response bytes unchanged, and exactly the single input chunk. -/
theorem TransformChain_chain_laws {Ctx : Type} (xs ys : List (Transformer Ctx))
    (t : Transformer Ctx) (req : List (String × Json)) (body data : String)
    (cs ds : List String) (ctx : Ctx) :
    (RunRequest ([] : List (Transformer Ctx)) req ctx = .ok (req, ctx)) ∧
    (RunRequest (xs ++ ys) req ctx =
      (RunRequest xs req ctx).bind fun p => RunRequest ys p.1 p.2) ∧
    (RunRequest [t] req ctx = t.transformRequest req ctx) ∧
    (RunResponse ([] : List (Transformer Ctx)) body ctx = .ok (body, ctx)) ∧
    (RunResponse (xs ++ ys) body ctx =
      (RunResponse ys body ctx).bind fun p => RunResponse xs p.1 p.2) ∧
    (RunResponse [t] body ctx = t.transformResponse body ctx) ∧
    (RunStreamChunk ([] : List (Transformer Ctx)) data ctx = .ok ([data], ctx)) ∧
    (RunStreamChunk (xs ++ ys) data ctx =
      (RunStreamChunk ys data ctx).bind fun p => RunStreamMany xs p.1 p.2) ∧
    (applyChunks t (cs ++ ds) ctx =
      (applyChunks t cs ctx).bind fun p =>
        (applyChunks t ds p.2).bind fun q => .ok (p.1 ++ q.1, q.2)) := by
  refine ⟨rfl, RunRequest_append xs ys req ctx, ?_, rfl, ?_, ?_, rfl, ?_, ?_⟩
  · simp only [RunRequest]
    cases t.transformRequest req ctx with
    | error e => rfl
    | ok p => rfl
  · simp only [RunResponse, List.reverse_append]
    exact RunResponseAux_append ys.reverse xs.reverse body ctx
  · simp only [RunResponse, List.reverse_cons, List.reverse_nil, List.nil_append,
      RunResponseAux]
    cases t.transformResponse body ctx with
    | error e => rfl
    | ok p => rfl
  · simp only [RunStreamChunk, RunStreamMany, List.reverse_append]
    exact RunStreamAux_append ys.reverse xs.reverse [data] ctx
  · induction cs generalizing ctx with
    | nil =>
        simp only [List.nil_append, applyChunks, Except.bind]
        cases applyChunks t ds ctx with
        | error e => rfl
        | ok q => rfl
    | cons c cs ih =>
        simp only [List.cons_append, applyChunks]
        cases t.transformStreamChunk c ctx with
        | error e => simp [Except.bind]
        | ok p =>
            simp only [Except.bind]
            simp only [List.append_eq]
            rw [ih p.2]
            cases applyChunks t cs p.2 with
            | error e => simp [Except.bind]
            | ok q =>
                simp only [Except.bind]
                cases applyChunks t ds q.2 with
                | error e => rfl
                | ok r => simp

/-- A cached leaf certificate. Only the fields the cache logic reads are
kept: the hostname key, the serial number, and the creation time. Times
are abstract ticks; `crypto/rand` serial generation is modelled as a
deterministic fresh-supply counter (what matters to the claims is which
stored certificate a call returns, not the serial's distribution). -/
structure CacheEntry where
  hostname : String
  serial : Nat
  created : Nat
  deriving Repr, DecidableEq

/-- State of Go's `mitm.CertCache`: the LRU order list (front = most
recently used; the map is an index into this list and is represented by
positional search), the configuration, and the serial supply. -/
structure CertCacheState where
  maxSize : Nat
  validity : Nat
  order : List CacheEntry
  nextSerial : Nat
  deriving Repr

/-- Remove the first entry for a hostname (`c.order.Remove(el)` on the
element the map points to). -/
def removeHost (h : String) : List CacheEntry → List CacheEntry
  | [] => []
  | e :: rest => if e.hostname = h then rest else e :: removeHost h rest

/-- Go method `CertCache.GetTLSConfig(hostname)`, with the current time
passed explicitly (`time.Since(entry.created) < c.validity` becomes
`now - entry.created < validity`; Go's negative-duration case coincides
with truncated subtraction). On a non-expired hit, move the entry to the
front and return it; otherwise drop any stale entry, generate a fresh
certificate, push it to the front and evict from the back down to
`maxSize`. Returns the certificate whose `tls.Config` is built. -/
def GetTLSConfig (st : CertCacheState) (h : String) (now : Nat) :
    CacheEntry × CertCacheState :=
  match st.order.find? (fun e => e.hostname = h) with
  | some e =>
    if now - e.created < st.validity then
      (e, { st with order := e :: removeHost h st.order })
    else
      let fresh : CacheEntry := ⟨h, st.nextSerial, now⟩
      (fresh, { st with
        order := (fresh :: removeHost h st.order).take st.maxSize,
        nextSerial := st.nextSerial + 1 })
  | none =>
    let fresh : CacheEntry := ⟨h, st.nextSerial, now⟩
    (fresh, { st with
      order := (fresh :: st.order).take st.maxSize,
      nextSerial := st.nextSerial + 1 })

/-- C7: cache coherence of `GetTLSConfig`. First conjunct: two sequential
calls for the same hostname, the second within the validity period of the
certificate the first returned, yield the identical cached certificate —
hence the same serial number. Second conjunct: when the cached entry has
expired, the call removes the stale entry, returns a freshly generated
certificate created now with the next serial, and installs it at the MRU
position. -/
theorem GetTLSConfig_cache_coherence (st : CertCacheState) (h : String)
    (now₁ now₂ : Nat) (hsize : 0 < st.maxSize) :
    (now₂ - (GetTLSConfig st h now₁).1.created < st.validity →
      (GetTLSConfig (GetTLSConfig st h now₁).2 h now₂).1 =
        (GetTLSConfig st h now₁).1) ∧
    (∀ e, st.order.find? (fun x => x.hostname = h) = some e →
      st.validity ≤ now₁ - e.created →
      (GetTLSConfig st h now₁).1 = ⟨h, st.nextSerial, now₁⟩ ∧
      (GetTLSConfig st h now₁).2.order =
        ((⟨h, st.nextSerial, now₁⟩ : CacheEntry) :: removeHost h st.order).take
          st.maxSize) := by
  have key : ∀ (st' : CertCacheState) (e : CacheEntry) (tl : List CacheEntry),
      st'.order = e :: tl → e.hostname = h →
      now₂ - e.created < st'.validity →
      (GetTLSConfig st' h now₂).1 = e := by
    intro st' e tl horder hh hv
    have hfind : st'.order.find? (fun x => x.hostname = h) = some e := by
      rw [horder]
      exact List.find?_cons_of_pos _ (by simpa using hh)
    simp only [GetTLSConfig, hfind]
    rw [if_pos hv]
  obtain ⟨n, hn⟩ : ∃ n, st.maxSize = n + 1 := ⟨st.maxSize - 1, by omega⟩
  constructor
  · intro hvalid
    rcases hfind : st.order.find? (fun e => e.hostname = h) with _ | e
    · -- miss on the first call: the fresh entry sits at the MRU front
      have h1 : GetTLSConfig st h now₁ =
          (⟨h, st.nextSerial, now₁⟩, { st with
            order := ((⟨h, st.nextSerial, now₁⟩ : CacheEntry) :: st.order).take st.maxSize,
            nextSerial := st.nextSerial + 1 }) := by
        simp [GetTLSConfig, hfind]
      rw [h1] at hvalid ⊢
      apply key _ _ (st.order.take n) _ rfl (by simpa using hvalid)
      simp [hn, List.take_succ_cons]
    · have he : e.hostname = h := by simpa using List.find?_some hfind
      by_cases hexp : now₁ - e.created < st.validity
      · -- non-expired hit: the entry moves to the MRU front and is returned
        have h1 : GetTLSConfig st h now₁ =
            (e, { st with order := e :: removeHost h st.order }) := by
          simp [GetTLSConfig, hfind, hexp]
        rw [h1] at hvalid ⊢
        exact key _ e (removeHost h st.order) rfl he (by simpa using hvalid)
      · -- expired on the first call: replaced by a fresh MRU entry
        have h1 : GetTLSConfig st h now₁ =
            (⟨h, st.nextSerial, now₁⟩, { st with
              order := ((⟨h, st.nextSerial, now₁⟩ : CacheEntry) ::
                removeHost h st.order).take st.maxSize,
              nextSerial := st.nextSerial + 1 }) := by
          simp [GetTLSConfig, hfind, hexp]
        rw [h1] at hvalid ⊢
        apply key _ _ ((removeHost h st.order).take n) _ rfl (by simpa using hvalid)
        simp [hn, List.take_succ_cons]
  · intro e hfind hexp
    simp only [GetTLSConfig, hfind]
    rw [if_neg (by omega)]
    exact ⟨rfl, rfl⟩

/-- Witness for C7: a concrete two-call sequence on an empty cache hits
the cached certificate, and an expired entry is replaced by a fresh one. -/
theorem GetTLSConfig_cache_coherence_witness :
    (GetTLSConfig (GetTLSConfig ⟨10, 100, [], 0⟩ "example.com" 5).2
        "example.com" 50).1 =
      (GetTLSConfig ⟨10, 100, [], 0⟩ "example.com" 5).1 ∧
    (GetTLSConfig ⟨10, 100, [⟨"example.com", 7, 0⟩], 8⟩ "example.com" 100).1 =
      ⟨"example.com", 8, 100⟩ :=
  ⟨(GetTLSConfig_cache_coherence ⟨10, 100, [], 0⟩ "example.com" 5 50
      (by decide)).1 (by decide),
   ((GetTLSConfig_cache_coherence ⟨10, 100, [⟨"example.com", 7, 0⟩], 8⟩
      "example.com" 100 0 (by decide)).2 ⟨"example.com", 7, 0⟩ rfl
      (by decide)).1⟩

/-- Token usage of an OpenAI chunk (`OUsage`); Go `int` fields. -/
structure OUsage where
  promptTokens : Int
  completionTokens : Int
  deriving Repr, DecidableEq

/-- Function fragment of a streaming tool call (`OStreamFuncDelta`). -/
structure OStreamFuncDelta where
  name : String
  arguments : String
  deriving Repr, DecidableEq

/-- Tool-call delta of a streaming chunk (`OStreamToolCall`). -/
structure OStreamToolCall where
  index : Int
  id : String
  type : String
  function : OStreamFuncDelta
  deriving Repr, DecidableEq

/-- Choice of a streaming chunk (`OStreamChoice` with its `OStreamDelta`
inlined: `content` is `*string`, hence optional; `role` is never read by
the translator but kept for shape). -/
structure OStreamChoice where
  role : String
  content : Option String
  toolCalls : List OStreamToolCall
  finishReason : Option String
  deriving Repr, DecidableEq

/-- An OpenAI streaming chunk (`OStreamChunk`) as decoded by
`json.Unmarshal` in `TranslateStream`. -/
structure OStreamChunk where
  id : String
  choices : List OStreamChoice
  usage : Option OUsage
  deriving Repr, DecidableEq

/-- Anthropic SSE events written by the translator, carrying exactly the
fields the emit helpers put in their payloads (the `message_start`
skeleton fields that are constant are omitted). -/
inductive AEvent where
  | messageStart (msgId : String) (inputTokens : Int)
  | blockStart (index : Nat) (blockType : String) (id : String) (name : String)
  | blockDelta (index : Nat) (deltaType : String) (payload : String)
  | blockStop (index : Nat)
  | messageDelta (stopReason : String) (outputTokens : Int)
  | messageStop
  deriving Repr, DecidableEq

/-- Entry of the translator's `toolCalls` map (`activeToolCall`). -/
structure ActiveToolCall where
  id : String
  name : String
  deriving Repr, DecidableEq

/-- Go struct `StreamTranslator`: the SSE state machine state. The
transform chain and its context are threaded separately (see
`TranslateStream`); `verbose` only controls logging and is omitted. -/
structure TState where
  modelLabel : String
  msgID : String
  blockIndex : Nat
  inTextBlock : Bool
  inToolBlock : Bool
  started : Bool
  finishReason : String
  usage : Option OUsage
  toolCalls : List (Int × ActiveToolCall)
  consecutiveDrops : Nat
  deriving Repr, DecidableEq

/-- Go constructor `NewStreamTranslator(modelLabel)`. -/
def NewStreamTranslator (modelLabel : String) : TState :=
  { modelLabel := modelLabel, msgID := "msg_stream", blockIndex := 0,
    inTextBlock := false, inToolBlock := false, started := false,
    finishReason := "", usage := none, toolCalls := [], consecutiveDrops := 0 }

/-- Go function `mapFinishReason`. -/
def mapFinishReason (fr : String) : String :=
  if fr = "stop" then "end_turn"
  else if fr = "tool_calls" then "tool_use"
  else if fr = "length" then "max_tokens"
  else "end_turn"

/-- Character class `[A-Za-z0-9_-]` of the `toolIDClean` regex. -/
def isToolIDChar (c : Char) : Bool :=
  ('A' ≤ c && c ≤ 'Z') || ('a' ≤ c && c ≤ 'z') || ('0' ≤ c && c ≤ '9') ||
    c = '_' || c = '-'

/-- Go function `sanitizeToolID`: replace every character outside
`[A-Za-z0-9_-]` with `_`. -/
def sanitizeToolID (id : String) : String :=
  ⟨id.data.map (fun c => if isToolIDChar c then c else '_')⟩

/-- Map assignment `st.toolCalls[index] = call`. -/
def assocSet (l : List (Int × ActiveToolCall)) (k : Int) (v : ActiveToolCall) :
    List (Int × ActiveToolCall) :=
  match l with
  | [] => [(k, v)]
  | (k', v') :: rest =>
      if k' = k then (k', v) :: rest else (k', v') :: assocSet rest k v

/-- Go method `closeCurrentBlock`: emit `content_block_stop` for the open
block, if any, and advance the block index. -/
def closeCurrentBlock (st : TState) : TState × List AEvent :=
  if st.inTextBlock || st.inToolBlock then
    ({ st with blockIndex := st.blockIndex + 1,
               inTextBlock := false, inToolBlock := false },
     [.blockStop st.blockIndex])
  else (st, [])

/-- Payload of `emitMessageStart`: message id and the prompt tokens from
any usage seen so far. -/
def mkMessageStart (st : TState) : AEvent :=
  .messageStart st.msgID (match st.usage with | some u => u.promptTokens | none => 0)

/-- The `for _, tc := range choice.Delta.ToolCalls` loop of
`processChunk`: a fragment with an `id` registers the call, closes any
open block and opens a `tool_use` block; any non-empty `arguments`
fragment emits an `input_json_delta` at the current block index. -/
def handleToolCalls (st : TState) : List OStreamToolCall → TState × List AEvent
  | [] => (st, [])
  | tc :: rest =>
    let r₁ : TState × List AEvent :=
      if tc.id ≠ "" then
        let stA := { st with toolCalls := assocSet st.toolCalls tc.index ⟨tc.id, tc.function.name⟩ }
        let cb := closeCurrentBlock stA
        ({ cb.1 with inToolBlock := true },
         cb.2 ++ [.blockStart cb.1.blockIndex "tool_use"
            (sanitizeToolID tc.id) tc.function.name])
      else (st, [])
    let r₂ : TState × List AEvent :=
      if tc.function.arguments ≠ "" then
        (r₁.1, [.blockDelta r₁.1.blockIndex "input_json_delta" tc.function.arguments])
      else (r₁.1, [])
    let r₃ := handleToolCalls r₂.1 rest
    (r₃.1, r₁.2 ++ r₂.2 ++ r₃.2)

/-- The `if choice.Delta.Content != nil && *choice.Delta.Content != ""`
block of `processChunk`: open a text block (closing any open block) on
the first non-empty fragment, then emit the text delta. -/
def handleContent (st : TState) (content : Option String) : TState × List AEvent :=
  match content with
  | some s =>
    if s ≠ "" then
      if !st.inTextBlock then
        let cb := closeCurrentBlock st
        ({ cb.1 with inTextBlock := true },
         cb.2 ++ [.blockStart cb.1.blockIndex "text" "" "",
           .blockDelta cb.1.blockIndex "text_delta" s])
      else (st, [.blockDelta st.blockIndex "text_delta" s])
    else (st, [])
  | none => (st, [])

/-- The head of `processChunk`: capture the message id from the first
chunk and the usage from any chunk bearing one. -/
def captureMeta (st : TState) (c : OStreamChunk) : TState :=
  let st := if !st.started && c.id ≠ "" then { st with msgID := "msg_" ++ c.id } else st
  match c.usage with | some u => { st with usage := some u } | none => st

/-- The per-choice part of `processChunk` (Go reads `chunk.Choices[0]`):
emit `message_start` on the first chunk with choices, record
`finish_reason`, handle text content, then the tool-call loop. -/
def processChoice (st : TState) (choice : OStreamChoice) : TState × List AEvent :=
  let r₀ : TState × List AEvent :=
    if !st.started then ({ st with started := true }, [mkMessageStart st])
    else (st, [])
  let st₁ := match choice.finishReason with
    | some fr => { r₀.1 with finishReason := fr }
    | none => r₀.1
  let r₁ := handleContent st₁ choice.content
  let r₂ := handleToolCalls r₁.1 choice.toolCalls
  (r₂.1, r₀.2 ++ r₁.2 ++ r₂.2)

/-- Go method `processChunk`: capture the message id and usage, ignore
chunks without choices, and process the first choice. -/
def processChunk (st : TState) (c : OStreamChunk) : TState × List AEvent :=
  let st := captureMeta st c
  match c.choices with
  | [] => (st, [])
  | choice :: _ => processChoice st choice

/-- One line of the backend SSE stream as `TranslateStream` observes it:
either a line without the `"data: "` prefix, or a data line carrying its
payload text together with the result of `json.Unmarshal` into
`OStreamChunk` (`none` when the payload is not valid JSON for the struct;
the parse itself is Go library behaviour and is treated as an oracle
attached to the line). -/
inductive SSELine where
  | notData
  | dataLine (payload : String) (parsed : Option OStreamChunk)

/-- Abstraction of `chain.RunStreamChunk` together with its transform
context: from a context state and the raw payload it either fails (any
transform error) or yields the next context state and the list of output
chunks, each tagged with the result of re-parsing it into `OStreamChunk`
(`none` for an unparseable transformed chunk). -/
def ChainFn (χ : Type) : Type :=
  χ → String → Except String (χ × List (Option OStreamChunk))

/-- The inner loop over the transformed chunks: an unparseable chunk
bumps the consecutive-drop counter (aborting at 3), a parsed chunk resets
it and runs the state machine. Returns the accumulated events and the
abort message, if any. -/
def processChunkList (st : TState) :
    List (Option OStreamChunk) → TState × List AEvent × Option String
  | [] => (st, [], none)
  | none :: rest =>
    let st := { st with consecutiveDrops := st.consecutiveDrops + 1 }
    if 3 ≤ st.consecutiveDrops then
      (st, [], some "too many consecutive unparseable transformed chunks")
    else processChunkList st rest
  | some c :: rest =>
    let st := { st with consecutiveDrops := 0 }
    let r := processChunk st c
    let rest' := processChunkList r.1 rest
    (rest'.1, r.2 ++ rest'.2.1, rest'.2.2)

/-- Result of processing one SSE line: continue, stop (the `[DONE]`
sentinel breaks the loop), or abort with an error. -/
inductive StepResult (χ : Type) where
  | cont (st : TState) (cs : χ) (evs : List AEvent)
  | halt (st : TState) (cs : χ) (evs : List AEvent)
  | abort (st : TState) (cs : χ) (evs : List AEvent) (msg : String)

/-- One iteration of the `TranslateStream` scanner loop: skip non-data
lines; break on `[DONE]`; on a parse failure bump the drop counter and
abort at 3; on success reset the counter and either run the transform
chain (whose error bumps the counter again, and whose output chunks go
through `processChunkList`) or process the chunk directly. -/
def stepLine {χ : Type} (chain : Option (ChainFn χ)) (st : TState) (cs : χ) :
    SSELine → StepResult χ
  | .notData => .cont st cs []
  | .dataLine payload parsed =>
    if payload = "[DONE]" then .halt st cs []
    else
      match parsed with
      | none =>
        let st := { st with consecutiveDrops := st.consecutiveDrops + 1 }
        if 3 ≤ st.consecutiveDrops then
          .abort st cs [] "too many consecutive unparseable chunks"
        else .cont st cs []
      | some chunk =>
        let st := { st with consecutiveDrops := 0 }
        match chain with
        | some f =>
          match f cs payload with
          | .error _ =>
            let st := { st with consecutiveDrops := st.consecutiveDrops + 1 }
            if 3 ≤ st.consecutiveDrops then
              .abort st cs [] "too many consecutive stream transform errors"
            else .cont st cs []
          | .ok (cs', outs) =>
            match processChunkList st outs with
            | (st', evs, some m) => .abort st' cs' evs m
            | (st', evs, none) => .cont st' cs' evs
        | none =>
          let r := processChunk st chunk
          .cont r.1 cs r.2

/-- The scanner loop of `TranslateStream` over a list of lines. The final
`Bool` records whether the loop stopped early (`[DONE]` or abort). -/
def runLines {χ : Type} (chain : Option (ChainFn χ)) :
    TState → χ → List SSELine →
      TState × χ × List AEvent × Option String × Bool
  | st, cs, [] => (st, cs, [], none, false)
  | st, cs, l :: rest =>
    match stepLine chain st cs l with
    | .abort st' cs' evs m => (st', cs', evs, some m, true)
    | .halt st' cs' evs => (st', cs', evs, none, true)
    | .cont st' cs' evs =>
      let (st'', cs'', evs', err, halted) := runLines chain st' cs' rest
      (st'', cs'', evs ++ evs', err, halted)

/-- Tail of `TranslateStream` after the loop: close any open block, emit
`message_delta` with the mapped stop reason and output tokens, then
`message_stop`. -/
def finishStream (st : TState) : TState × List AEvent :=
  let cb := closeCurrentBlock st
  (cb.1, cb.2 ++
    [.messageDelta (mapFinishReason cb.1.finishReason)
        (match cb.1.usage with | some u => u.completionTokens | none => 0),
     .messageStop])

/-- Result of a whole `TranslateStream` call: the events written to `w`,
the final translator state, and the returned error, if any (events
already written stay written when the stream aborts). -/
structure StreamRun where
  state : TState
  events : List AEvent
  err : Option String
  deriving Repr

/-- Go method `StreamTranslator.TranslateStream` on a fresh translator
for `modelLabel`, reading the given lines: the scanner loop, then — when
no abort happened — the closing lifecycle events. -/
def TranslateStream {χ : Type} (chain : Option (ChainFn χ)) (cs₀ : χ)
    (modelLabel : String) (lines : List SSELine) : StreamRun :=
  let r := runLines chain (NewStreamTranslator modelLabel) cs₀ lines
  match r.2.2.2.1 with
  | some m => ⟨r.1, r.2.2.1, some m⟩
  | none =>
    ⟨(finishStream r.1).1, r.2.2.1 ++ (finishStream r.1).2, none⟩

theorem runLines_skip_notData {χ : Type} (chain : Option (ChainFn χ))
    (pre post : List SSELine) :
    ∀ st cs, runLines chain st cs (pre ++ .notData :: post) =
      runLines chain st cs (pre ++ post) := by
  induction pre with
  | nil =>
      intro st cs
      rcases hr : runLines chain st cs post with ⟨a, b, c, d, e⟩
      simp only [List.nil_append, runLines, stepLine, hr]
  | cons l pre ih =>
      intro st cs
      simp only [List.cons_append, runLines, List.append_eq]
      cases stepLine chain st cs l with
      | abort st' cs' evs m => rfl
      | halt st' cs' evs => rfl
      | cont st' cs' evs => simp only [ih]

/-- C10: a line that does not begin with `"data: "` is skipped outright —
the step neither emits events, nor changes the translator state, the
chain context or the drop counter — and hence a whole run over a stream
with such a line inserted anywhere equals the run without it. Only
`"data: "` payloads participate in parsing and the 3-failure abort. -/
theorem TranslateStream_skips_non_data {χ : Type} (chain : Option (ChainFn χ))
    (st : TState) (cs cs₀ : χ) (modelLabel : String)
    (pre post : List SSELine) :
    stepLine chain st cs .notData = .cont st cs [] ∧
    TranslateStream chain cs₀ modelLabel (pre ++ .notData :: post) =
      TranslateStream chain cs₀ modelLabel (pre ++ post) := by
  refine ⟨rfl, ?_⟩
  unfold TranslateStream
  rw [runLines_skip_notData]

theorem closeCurrentBlock_drops (st : TState) :
    (closeCurrentBlock st).1.consecutiveDrops = st.consecutiveDrops := by
  unfold closeCurrentBlock
  split <;> rfl

theorem handleToolCalls_drops (tcs : List OStreamToolCall) :
    ∀ st, (handleToolCalls st tcs).1.consecutiveDrops = st.consecutiveDrops := by
  induction tcs with
  | nil => intro st; rfl
  | cons tc rest ih =>
      intro st
      simp only [handleToolCalls]
      rw [ih]
      by_cases hid : tc.id ≠ "" <;>
        by_cases harg : tc.function.arguments ≠ "" <;>
          simp [hid, harg, closeCurrentBlock_drops]

theorem handleContent_drops (st : TState) (content : Option String) :
    (handleContent st content).1.consecutiveDrops = st.consecutiveDrops := by
  simp only [handleContent]
  repeat' split
  all_goals simp [closeCurrentBlock_drops]

theorem captureMeta_drops (st : TState) (c : OStreamChunk) :
    (captureMeta st c).consecutiveDrops = st.consecutiveDrops := by
  simp only [captureMeta]
  repeat' split
  all_goals rfl

theorem processChoice_drops (st : TState) (choice : OStreamChoice) :
    (processChoice st choice).1.consecutiveDrops = st.consecutiveDrops := by
  simp only [processChoice]
  rw [handleToolCalls_drops, handleContent_drops]
  repeat' split
  all_goals rfl

theorem processChunk_drops (st : TState) (c : OStreamChunk) :
    (processChunk st c).1.consecutiveDrops = st.consecutiveDrops := by
  simp only [processChunk]
  split
  · exact captureMeta_drops st c
  · rw [processChoice_drops, captureMeta_drops]

theorem stepLine_malformed {χ : Type} (chain : Option (ChainFn χ)) (st : TState)
    (cs : χ) (payload : String) (hp : payload ≠ "[DONE]") :
    stepLine chain st cs (.dataLine payload none) =
      if 3 ≤ st.consecutiveDrops + 1 then
        .abort { st with consecutiveDrops := st.consecutiveDrops + 1 } cs []
          "too many consecutive unparseable chunks"
      else .cont { st with consecutiveDrops := st.consecutiveDrops + 1 } cs [] := by
  simp [stepLine, hp]

theorem runLines_append {χ : Type} (chain : Option (ChainFn χ))
    (xs ys : List SSELine) :
    ∀ st cs st₁ cs₁ evs₁,
      runLines chain st cs xs = (st₁, cs₁, evs₁, none, false) →
      runLines chain st cs (xs ++ ys) =
        ((runLines chain st₁ cs₁ ys).1, (runLines chain st₁ cs₁ ys).2.1,
          evs₁ ++ (runLines chain st₁ cs₁ ys).2.2.1,
          (runLines chain st₁ cs₁ ys).2.2.2.1,
          (runLines chain st₁ cs₁ ys).2.2.2.2) := by
  induction xs with
  | nil =>
      intro st cs st₁ cs₁ evs₁ hrun
      simp only [runLines, Prod.mk.injEq] at hrun
      obtain ⟨rfl, rfl, h3, -⟩ := hrun
      rcases hr : runLines chain st cs ys with ⟨a, b, c, d, e⟩
      simp [← h3, hr]
  | cons l xs ih =>
      intro st cs st₁ cs₁ evs₁ hrun
      simp only [List.cons_append, runLines] at hrun ⊢
      cases hstep : stepLine chain st cs l with
      | abort st' cs' evs m =>
          rw [hstep] at hrun
          simp at hrun
      | halt st' cs' evs =>
          rw [hstep] at hrun
          simp at hrun
      | cont st' cs' evs =>
          rw [hstep] at hrun
          rcases hr : runLines chain st' cs' xs with ⟨a, b, c, d, e⟩
          simp only [hr, Prod.mk.injEq] at hrun
          obtain ⟨rfl, rfl, h3, h4, h5⟩ := hrun
          have hx := ih st' cs' a b c (by rw [hr, h4, h5])
          simp only [List.append_eq] at hx ⊢
          rw [hx]
          simp [← h3]

/-- C6: the consecutive-drop discipline of `TranslateStream`. A `data:`
line whose payload fails to parse is dropped (no events, chain state
untouched) and bumps the counter — aborting the stream the moment the
counter reaches 3, so at most 2 consecutive malformed lines are
tolerated; a successfully parsed chunk resets the counter to zero (shown
for the default configuration without a transform chain, where nothing
bumps it afterwards); and after any error-free, non-halted prefix, three
consecutive malformed data lines always abort the stream. -/
theorem TranslateStream_consecutive_drop_abort {χ : Type}
    (chain : Option (ChainFn χ)) (st : TState) (cs cs₀ : χ)
    (modelLabel payload p₁ p₂ p₃ : String) (chunk : OStreamChunk)
    (pre : List SSELine)
    (hp₁ : p₁ ≠ "[DONE]") (hp₂ : p₂ ≠ "[DONE]") (hp₃ : p₃ ≠ "[DONE]") :
    (payload ≠ "[DONE]" → st.consecutiveDrops ≤ 1 →
      stepLine chain st cs (.dataLine payload none) =
        .cont { st with consecutiveDrops := st.consecutiveDrops + 1 } cs []) ∧
    (payload ≠ "[DONE]" → 2 ≤ st.consecutiveDrops →
      stepLine chain st cs (.dataLine payload none) =
        .abort { st with consecutiveDrops := st.consecutiveDrops + 1 } cs []
          "too many consecutive unparseable chunks") ∧
    (payload ≠ "[DONE]" →
      stepLine (none : Option (ChainFn χ)) st cs (.dataLine payload (some chunk)) =
        .cont (processChunk { st with consecutiveDrops := 0 } chunk).1 cs
          (processChunk { st with consecutiveDrops := 0 } chunk).2 ∧
      (processChunk { st with consecutiveDrops := 0 } chunk).1.consecutiveDrops = 0) ∧
    (∀ st₁ cs₁ evs₁,
      runLines chain (NewStreamTranslator modelLabel) cs₀ pre =
        (st₁, cs₁, evs₁, none, false) →
      (TranslateStream chain cs₀ modelLabel
        (pre ++ [.dataLine p₁ none, .dataLine p₂ none,
          .dataLine p₃ none])).err.isSome = true) := by
  refine ⟨fun hp hd => ?_, fun hp hd => ?_, fun hp => ⟨?_, ?_⟩, ?_⟩
  · rw [stepLine_malformed chain st cs payload hp, if_neg (by omega)]
  · rw [stepLine_malformed chain st cs payload hp, if_pos (by omega)]
  · simp [stepLine, hp]
  · rw [processChunk_drops]
  · have habort : ∀ (st' : TState) (cs' : χ),
        (runLines chain st' cs'
          [.dataLine p₁ none, .dataLine p₂ none, .dataLine p₃ none]).2.2.2.1.isSome
          = true := by
      intro st' cs'
      have e1 := stepLine_malformed chain st' cs' p₁ hp₁
      by_cases h1 : 3 ≤ st'.consecutiveDrops + 1
      · rw [if_pos h1] at e1
        simp [runLines, e1]
      · rw [if_neg h1] at e1
        have e2 := stepLine_malformed chain
          { st' with consecutiveDrops := st'.consecutiveDrops + 1 } cs' p₂ hp₂
        simp only at e2
        by_cases h2 : 3 ≤ st'.consecutiveDrops + 1 + 1
        · rw [if_pos h2] at e2
          simp [runLines, e1, e2]
        · rw [if_neg h2] at e2
          have e3 := stepLine_malformed chain
            { st' with consecutiveDrops := st'.consecutiveDrops + 1 + 1 } cs' p₃ hp₃
          simp only at e3
          rw [if_pos (by omega)] at e3
          simp [runLines, e1, e2, e3]
    intro st₁ cs₁ evs₁ hpre
    have happ := runLines_append chain pre
      [.dataLine p₁ none, .dataLine p₂ none, .dataLine p₃ none]
      (NewStreamTranslator modelLabel) cs₀ st₁ cs₁ evs₁ hpre
    simp only [TranslateStream, happ]
    have hs := habort st₁ cs₁
    rcases hsome : (runLines chain st₁ cs₁
        [.dataLine p₁ none, .dataLine p₂ none, .dataLine p₃ none]).2.2.2.1 with _ | m
    · rw [hsome] at hs
      simp at hs
    · rfl

/-- Witness for C6 at concrete inputs: a first malformed line is
tolerated (counter 1), a parsed chunk resets the counter, and a stream of
three malformed lines aborts. -/
theorem TranslateStream_consecutive_drop_abort_witness :
    stepLine (none : Option (ChainFn Unit)) (NewStreamTranslator "m") ()
        (.dataLine "oops" none) =
      .cont { NewStreamTranslator "m" with consecutiveDrops := 1 } () [] ∧
    (processChunk { NewStreamTranslator "m" with consecutiveDrops := 0 }
        ⟨"abc", [], none⟩).1.consecutiveDrops = 0 ∧
    (TranslateStream (none : Option (ChainFn Unit)) () "m"
        ([] ++ [.dataLine "a" none, .dataLine "b" none,
          .dataLine "c" none])).err.isSome = true := by
  have h := TranslateStream_consecutive_drop_abort
    (none : Option (ChainFn Unit)) (NewStreamTranslator "m") () ()
    "m" "oops" "a" "b" "c" ⟨"abc", [], none⟩ []
    (by decide) (by decide) (by decide)
  exact ⟨h.1 (by decide) (by decide),
    (h.2.2.1 (by decide)).2,
    h.2.2.2 (NewStreamTranslator "m") () [] rfl⟩

/-- Whether the translator has a content block open. -/
def blockOpen (st : TState) : Bool :=
  st.inTextBlock || st.inToolBlock

/-- Scan a run of block-level events, tracking the expected index of the
next `content_block_stop` and whether a block is open. Starts use the
current index when no block is open; stops match the open block's index
and advance it; deltas are free (the translator emits orphan tool-arg
deltas without opening a block); message-level events are rejected.
Returns the final scan state, or `none` for an ill-formed run. -/
def scanBlocks : Nat → Bool → List AEvent → Option (Nat × Bool)
  | idx, opened, [] => some (idx, opened)
  | idx, opened, .blockStart i _ _ _ :: rest =>
      if !opened && i == idx then scanBlocks idx true rest else none
  | idx, opened, .blockStop i :: rest =>
      if opened && i == idx then scanBlocks (idx + 1) false rest else none
  | idx, opened, .blockDelta _ _ _ :: rest => scanBlocks idx opened rest
  | _, _, _ => none

/-- Decide the tail of the Anthropic lifecycle grammar: a well-formed run
of block events (per `scanBlocks`) followed by exactly `message_delta`
then `message_stop`, with no block left open at the boundary. -/
def checkSeq : Nat → Bool → List AEvent → Bool
  | _, opened, [.messageDelta _ _, .messageStop] => !opened
  | idx, opened, .blockStart i _ _ _ :: rest =>
      !opened && i == idx && checkSeq idx true rest
  | idx, opened, .blockStop i :: rest =>
      opened && i == idx && checkSeq (idx + 1) false rest
  | idx, opened, .blockDelta _ _ _ :: rest => checkSeq idx opened rest
  | _, _, _ => false

/-- Decide the full Anthropic lifecycle grammar of claim C3: an optional
leading `message_start` (and none anywhere else), then block groups with
matching starts/stops, then exactly one `message_delta` followed by
exactly one `message_stop` ending the stream. -/
def checkLifecycle (evs : List AEvent) : Bool :=
  match evs with
  | .messageStart _ _ :: rest => checkSeq 0 false rest
  | _ => checkSeq 0 false evs

/-- Number of `message_start` events in a list. -/
def countMessageStart : List AEvent → Nat
  | [] => 0
  | .messageStart _ _ :: rest => countMessageStart rest + 1
  | _ :: rest => countMessageStart rest

theorem scanBlocks_append (xs ys : List AEvent) :
    ∀ idx opened, scanBlocks idx opened (xs ++ ys) =
      match scanBlocks idx opened xs with
      | some p => scanBlocks p.1 p.2 ys
      | none => none := by
  induction xs with
  | nil => intro idx opened; simp [scanBlocks]
  | cons e xs ih =>
      intro idx opened
      cases e with
      | blockStart i bt id name =>
          simp only [List.cons_append, scanBlocks, List.append_eq]
          by_cases h : (!opened && i == idx) = true
          · rw [if_pos h, if_pos h, ih]
          · rw [if_neg h, if_neg h]
      | blockStop i =>
          simp only [List.cons_append, scanBlocks, List.append_eq]
          by_cases h : (opened && i == idx) = true
          · rw [if_pos h, if_pos h, ih]
          · rw [if_neg h, if_neg h]
      | blockDelta i dt p =>
          simp only [List.cons_append, scanBlocks, List.append_eq]
          exact ih idx opened
      | messageStart m t => simp [scanBlocks]
      | messageDelta sr ot => simp [scanBlocks]
      | messageStop => simp [scanBlocks]

theorem checkSeq_of_scan (xs : List AEvent) :
    ∀ idx opened idx' opened' tail,
      scanBlocks idx opened xs = some (idx', opened') →
      checkSeq idx opened (xs ++ tail) = checkSeq idx' opened' tail := by
  induction xs with
  | nil =>
      intro idx opened idx' opened' tail hscan
      simp only [scanBlocks, Option.some.injEq, Prod.mk.injEq] at hscan
      obtain ⟨rfl, rfl⟩ := hscan
      simp
  | cons e xs ih =>
      intro idx opened idx' opened' tail hscan
      cases e with
      | blockStart i bt id name =>
          simp only [scanBlocks] at hscan
          by_cases h : (!opened && i == idx) = true
          · rw [if_pos h] at hscan
            have hrest := ih idx true idx' opened' tail hscan
            simp only [List.cons_append, checkSeq, List.append_eq]
            rw [hrest]
            simp only [Bool.and_eq_true] at h
            simp [h.1, h.2]
          · rw [if_neg h] at hscan
            exact absurd hscan (by simp)
      | blockStop i =>
          simp only [scanBlocks] at hscan
          by_cases h : (opened && i == idx) = true
          · rw [if_pos h] at hscan
            have hrest := ih (idx + 1) false idx' opened' tail hscan
            simp only [List.cons_append, checkSeq, List.append_eq]
            rw [hrest]
            simp only [Bool.and_eq_true] at h
            simp [h.1, h.2]
          · rw [if_neg h] at hscan
            exact absurd hscan (by simp)
      | blockDelta i dt p =>
          simp only [scanBlocks] at hscan
          simp only [List.cons_append, checkSeq, List.append_eq]
          exact ih idx opened idx' opened' tail hscan
      | messageStart m t => exact absurd hscan (by simp [scanBlocks])
      | messageDelta sr ot => exact absurd hscan (by simp [scanBlocks])
      | messageStop => exact absurd hscan (by simp [scanBlocks])

theorem countMessageStart_of_scan (xs : List AEvent) :
    ∀ idx opened p, scanBlocks idx opened xs = some p →
      countMessageStart xs = 0 := by
  induction xs with
  | nil => intro idx opened p _; rfl
  | cons e xs ih =>
      intro idx opened p hscan
      cases e with
      | blockStart i bt id name =>
          simp only [scanBlocks] at hscan
          by_cases h : (!opened && i == idx) = true
          · rw [if_pos h] at hscan
            simpa [countMessageStart] using ih idx true p hscan
          · rw [if_neg h] at hscan
            exact absurd hscan (by simp)
      | blockStop i =>
          simp only [scanBlocks] at hscan
          by_cases h : (opened && i == idx) = true
          · rw [if_pos h] at hscan
            simpa [countMessageStart] using ih (idx + 1) false p hscan
          · rw [if_neg h] at hscan
            exact absurd hscan (by simp)
      | blockDelta i dt pp =>
          simp only [scanBlocks] at hscan
          simpa [countMessageStart] using ih idx opened p hscan
      | messageStart m t => exact absurd hscan (by simp [scanBlocks])
      | messageDelta sr ot => exact absurd hscan (by simp [scanBlocks])
      | messageStop => exact absurd hscan (by simp [scanBlocks])

theorem countMessageStart_append (xs ys : List AEvent) :
    countMessageStart (xs ++ ys) = countMessageStart xs + countMessageStart ys := by
  induction xs with
  | nil => simp [countMessageStart]
  | cons e xs ih =>
      cases e <;> simp [countMessageStart, ih] <;> omega

/-- The events `evs` emitted while the translator moved from `st` to
`st'` form a well-scanning block run connecting the two states. -/
def ScanStep (st st' : TState) (evs : List AEvent) : Prop :=
  scanBlocks st.blockIndex (blockOpen st) evs = some (st'.blockIndex, blockOpen st')

theorem ScanStep_trans {s₁ s₂ s₃ : TState} {evs evs' : List AEvent}
    (h₁ : ScanStep s₁ s₂ evs) (h₂ : ScanStep s₂ s₃ evs') :
    ScanStep s₁ s₃ (evs ++ evs') := by
  unfold ScanStep at *
  rw [scanBlocks_append, h₁]
  exact h₂

theorem closeCurrentBlock_scan (st : TState) :
    ScanStep st (closeCurrentBlock st).1 (closeCurrentBlock st).2 ∧
    (closeCurrentBlock st).1.started = st.started ∧
    blockOpen (closeCurrentBlock st).1 = false := by
  unfold closeCurrentBlock ScanStep blockOpen
  by_cases h : (st.inTextBlock || st.inToolBlock) = true
  · rw [if_pos h]
    simp [scanBlocks, h]
  · rw [if_neg h]
    simp only [Bool.or_eq_true, not_or, Bool.not_eq_true] at h
    simp [scanBlocks, h.1, h.2]

theorem handleContent_scan (st : TState) (content : Option String) :
    ScanStep st (handleContent st content).1 (handleContent st content).2 ∧
    (handleContent st content).1.started = st.started := by
  rcases content with _ | s
  · exact ⟨rfl, rfl⟩
  · simp only [handleContent]
    by_cases hs : s ≠ ""
    · rw [if_pos hs]
      by_cases htb : (!st.inTextBlock) = true
      · rw [if_pos htb]
        obtain ⟨hscan, hstart, hopen⟩ := closeCurrentBlock_scan st
        constructor
        · refine ScanStep_trans hscan ?_
          unfold ScanStep
          simp only [blockOpen] at hopen
          simp [scanBlocks, blockOpen, hopen]
        · exact hstart
      · rw [if_neg htb]
        simp only [Bool.not_eq_true', Bool.not_eq_true] at htb
        constructor
        · unfold ScanStep
          simp [scanBlocks]
        · rfl
    · rw [if_neg hs]
      exact ⟨rfl, rfl⟩

theorem handleToolCalls_scan (tcs : List OStreamToolCall) :
    ∀ st, ScanStep st (handleToolCalls st tcs).1 (handleToolCalls st tcs).2 ∧
      (handleToolCalls st tcs).1.started = st.started := by
  induction tcs with
  | nil => intro st; exact ⟨rfl, rfl⟩
  | cons tc rest ih =>
      intro st
      simp only [handleToolCalls]
      by_cases hid : tc.id ≠ ""
      · rw [if_pos hid]
        set stA : TState :=
          { st with toolCalls := assocSet st.toolCalls tc.index ⟨tc.id, tc.function.name⟩ }
          with hstA
        obtain ⟨hscan, hstart, hopen⟩ := closeCurrentBlock_scan stA
        set stB := (closeCurrentBlock stA).1 with hstB
        have hscanA : ScanStep st stB (closeCurrentBlock stA).2 := by
          unfold ScanStep at hscan ⊢
          simpa [hstA, blockOpen] using hscan
        have step₁ : ScanStep st ({ stB with inToolBlock := true})
            ((closeCurrentBlock stA).2 ++
              [.blockStart stB.blockIndex "tool_use"
                (sanitizeToolID tc.id) tc.function.name]) := by
          refine ScanStep_trans hscanA ?_
          unfold ScanStep
          simp only [blockOpen] at hopen ⊢
          simp [scanBlocks, hopen]
        by_cases harg : tc.function.arguments ≠ ""
        · rw [if_pos harg]
          obtain ⟨ihscan, ihstart⟩ := ih { stB with inToolBlock := true }
          constructor
          · refine ScanStep_trans (ScanStep_trans step₁ ?_) ihscan
            unfold ScanStep
            simp [scanBlocks]
          · rw [ihstart, hstB]
            rw [hstart, hstA]
        · rw [if_neg harg]
          obtain ⟨ihscan, ihstart⟩ := ih { stB with inToolBlock := true }
          constructor
          · simpa using ScanStep_trans step₁ ihscan
          · rw [ihstart, hstB]
            rw [hstart, hstA]
      · rw [if_neg hid]
        by_cases harg : tc.function.arguments ≠ ""
        · rw [if_pos harg]
          obtain ⟨ihscan, ihstart⟩ := ih st
          constructor
          · refine ScanStep_trans ?_ ihscan
            unfold ScanStep
            simp [scanBlocks]
          · exact ihstart
        · rw [if_neg harg]
          obtain ⟨ihscan, ihstart⟩ := ih st
          exact ⟨by simpa using ihscan, ihstart⟩

/-- Invariant tying the translator state to the events emitted so far:
before `message_start` nothing has been emitted and no block state
exists; afterwards the history is `message_start` followed by a block run
whose scan state is exactly the translator's block index and open flag. -/
def EvInv (st : TState) (evs : List AEvent) : Prop :=
  (st.started = false →
    evs = [] ∧ st.inTextBlock = false ∧ st.inToolBlock = false ∧
      st.blockIndex = 0) ∧
  (st.started = true →
    ∃ msgid toks mid, evs = .messageStart msgid toks :: mid ∧
      scanBlocks 0 false mid = some (st.blockIndex, blockOpen st))

theorem captureMeta_fields (st : TState) (c : OStreamChunk) :
    (captureMeta st c).started = st.started ∧
    (captureMeta st c).inTextBlock = st.inTextBlock ∧
    (captureMeta st c).inToolBlock = st.inToolBlock ∧
    (captureMeta st c).blockIndex = st.blockIndex := by
  simp only [captureMeta]
  repeat' split
  all_goals simp

theorem EvInv_captureMeta {st : TState} {evs : List AEvent} (c : OStreamChunk)
    (h : EvInv st evs) : EvInv (captureMeta st c) evs := by
  obtain ⟨hf, ht⟩ := h
  obtain ⟨h1, h2, h3, h4⟩ := captureMeta_fields st c
  constructor
  · intro hs
    rw [h1] at hs
    obtain ⟨e1, e2, e3, e4⟩ := hf hs
    exact ⟨e1, by rw [h2, e2], by rw [h3, e3], by rw [h4, e4]⟩
  · intro hs
    rw [h1] at hs
    obtain ⟨msgid, toks, mid, e1, e2⟩ := ht hs
    exact ⟨msgid, toks, mid, e1, by
      rw [h4]
      simpa [blockOpen, h2, h3] using e2⟩

theorem EvInv_processChoice {st : TState} {evs : List AEvent}
    (choice : OStreamChoice) (h : EvInv st evs) :
    EvInv (processChoice st choice).1 (evs ++ (processChoice st choice).2) := by
  obtain ⟨hf, ht⟩ := h
  have hmain : ∀ st₁ : TState, st₁.started = true →
      st₁.inTextBlock = st.inTextBlock → st₁.inToolBlock = st.inToolBlock →
      st₁.blockIndex = st.blockIndex →
      ScanStep st ((handleToolCalls
          (handleContent st₁ choice.content).1 choice.toolCalls).1)
        ((handleContent st₁ choice.content).2 ++
          (handleToolCalls (handleContent st₁ choice.content).1
            choice.toolCalls).2) ∧
      ((handleToolCalls (handleContent st₁ choice.content).1
          choice.toolCalls).1).started = true := by
    intro st₁ hs h₂ h₃ h₄
    obtain ⟨hscan₁, hstart₁⟩ := handleContent_scan st₁ choice.content
    obtain ⟨hscan₂, hstart₂⟩ :=
      handleToolCalls_scan choice.toolCalls (handleContent st₁ choice.content).1
    have hstep : ScanStep st (handleContent st₁ choice.content).1
        (handleContent st₁ choice.content).2 := by
      unfold ScanStep at hscan₁ ⊢
      rw [h₄, blockOpen, h₂, h₃] at hscan₁
      exact hscan₁
    exact ⟨ScanStep_trans hstep hscan₂, by rw [hstart₂, hstart₁, hs]⟩
  cases hstart : st.started with
  | false =>
      obtain ⟨he, htx, htl, hbi⟩ := hf hstart
      have hpc : processChoice st choice =
          ((handleToolCalls
              (handleContent
                (match choice.finishReason with
                  | some fr => { st with started := true, finishReason := fr }
                  | none => { st with started := true }) choice.content).1
              choice.toolCalls).1,
            [mkMessageStart st] ++
              ((handleContent
                (match choice.finishReason with
                  | some fr => { st with started := true, finishReason := fr }
                  | none => { st with started := true }) choice.content).2 ++
              (handleToolCalls
                (handleContent
                  (match choice.finishReason with
                    | some fr => { st with started := true, finishReason := fr }
                    | none => { st with started := true }) choice.content).1
                choice.toolCalls).2)) := by
        cases hfr : choice.finishReason <;> simp [processChoice, hstart, hfr]
      set st₁ : TState := (match choice.finishReason with
        | some fr => { st with started := true, finishReason := fr }
        | none => { st with started := true }) with hst₁
      have hfields : st₁.started = true ∧ st₁.inTextBlock = st.inTextBlock ∧
          st₁.inToolBlock = st.inToolBlock ∧ st₁.blockIndex = st.blockIndex := by
        rw [hst₁]
        cases hfr : choice.finishReason <;> simp [hfr]
      obtain ⟨hm₁, hm₂⟩ := hmain st₁ hfields.1 hfields.2.1 hfields.2.2.1 hfields.2.2.2
      rw [hpc]
      constructor
      · intro hcon
        rw [hm₂] at hcon
        simp at hcon
      · intro _
        refine ⟨st.msgID,
          (match st.usage with | some u => u.promptTokens | none => 0),
          (handleContent st₁ choice.content).2 ++
            (handleToolCalls (handleContent st₁ choice.content).1
              choice.toolCalls).2,
          by simp [he, mkMessageStart], ?_⟩
        unfold ScanStep at hm₁
        rw [hbi, blockOpen, htx, htl] at hm₁
        exact hm₁
  | true =>
      obtain ⟨msgid, toks, mid, he, hscan₀⟩ := ht hstart
      have hpc : processChoice st choice =
          ((handleToolCalls
              (handleContent
                (match choice.finishReason with
                  | some fr => { st with finishReason := fr }
                  | none => st) choice.content).1
              choice.toolCalls).1,
            ((handleContent
              (match choice.finishReason with
                | some fr => { st with finishReason := fr }
                | none => st) choice.content).2 ++
            (handleToolCalls
              (handleContent
                (match choice.finishReason with
                  | some fr => { st with finishReason := fr }
                  | none => st) choice.content).1
              choice.toolCalls).2)) := by
        cases hfr : choice.finishReason <;> simp [processChoice, hstart, hfr]
      set st₁ : TState := (match choice.finishReason with
        | some fr => { st with finishReason := fr }
        | none => st) with hst₁
      have hfields : st₁.started = true ∧ st₁.inTextBlock = st.inTextBlock ∧
          st₁.inToolBlock = st.inToolBlock ∧ st₁.blockIndex = st.blockIndex := by
        rw [hst₁]
        cases hfr : choice.finishReason <;> simp [hfr, hstart]
      obtain ⟨hm₁, hm₂⟩ := hmain st₁ hfields.1 hfields.2.1 hfields.2.2.1 hfields.2.2.2
      rw [hpc]
      constructor
      · intro hcon
        rw [hm₂] at hcon
        simp at hcon
      · intro _
        refine ⟨msgid, toks,
          mid ++ ((handleContent st₁ choice.content).2 ++
            (handleToolCalls (handleContent st₁ choice.content).1
              choice.toolCalls).2),
          by simp [he], ?_⟩
        rw [scanBlocks_append, hscan₀]
        exact hm₁

theorem EvInv_processChunk {st : TState} {evs : List AEvent} (c : OStreamChunk)
    (h : EvInv st evs) :
    EvInv (processChunk st c).1 (evs ++ (processChunk st c).2) := by
  simp only [processChunk]
  split
  · simpa using EvInv_captureMeta c h
  · exact EvInv_processChoice _ (EvInv_captureMeta c h)

theorem EvInv_drops {st : TState} {evs : List AEvent} (n : Nat)
    (h : EvInv st evs) : EvInv { st with consecutiveDrops := n } evs := by
  obtain ⟨hf, ht⟩ := h
  exact ⟨fun hs => hf hs, fun hs => by
    obtain ⟨msgid, toks, mid, e1, e2⟩ := ht hs
    exact ⟨msgid, toks, mid, e1, by simpa [blockOpen] using e2⟩⟩

theorem EvInv_processChunkList (outs : List (Option OStreamChunk)) :
    ∀ (st : TState) (evs : List AEvent), EvInv st evs →
      EvInv (processChunkList st outs).1
        (evs ++ (processChunkList st outs).2.1) := by
  induction outs with
  | nil => intro st evs h; simpa [processChunkList] using h
  | cons o rest ih =>
      intro st evs h
      cases o with
      | none =>
          simp only [processChunkList]
          split
          · simpa using EvInv_drops _ h
          · simpa using ih _ evs (EvInv_drops _ h)
      | some c =>
          simp only [processChunkList]
          have h₁ := EvInv_processChunk c (EvInv_drops 0 h)
          have h₂ := ih _ _ h₁
          simpa [List.append_assoc] using h₂

theorem EvInv_stepLine {χ : Type} (chain : Option (ChainFn χ)) (st : TState)
    (cs : χ) (l : SSELine) {evs : List AEvent} (h : EvInv st evs) :
    (match stepLine chain st cs l with
      | .cont st' _ evsN => EvInv st' (evs ++ evsN)
      | .halt st' _ evsN => EvInv st' (evs ++ evsN)
      | .abort st' _ evsN _ => EvInv st' (evs ++ evsN)) := by
  cases l with
  | notData => simpa [stepLine] using h
  | dataLine payload parsed =>
      by_cases hp : payload = "[DONE]"
      · simp only [stepLine, if_pos hp]
        simpa using h
      · cases parsed with
        | none =>
            rw [stepLine_malformed chain st cs payload hp]
            by_cases hd : 3 ≤ st.consecutiveDrops + 1
            · rw [if_pos hd]
              simpa using EvInv_drops _ h
            · rw [if_neg hd]
              simpa using EvInv_drops _ h
        | some chunk =>
            cases chain with
            | none =>
                simp only [stepLine, if_neg hp]
                simpa using EvInv_processChunk chunk (EvInv_drops 0 h)
            | some f =>
                simp only [stepLine, if_neg hp]
                cases hf : f cs payload with
                | error e =>
                    simp only [hf]
                    simpa using EvInv_drops _ (EvInv_drops 0 h)
                | ok p =>
                    simp only [hf]
                    have hq := EvInv_processChunkList p.2 _ evs (EvInv_drops 0 h)
                    rcases hr : processChunkList
                        { st with consecutiveDrops := 0 } p.2 with ⟨st', rest⟩
                    rcases rest with ⟨evsN, err⟩
                    rw [hr] at hq
                    cases err <;> simpa using hq

theorem EvInv_runLines {χ : Type} (chain : Option (ChainFn χ))
    (lines : List SSELine) :
    ∀ (st : TState) (cs : χ) (evs : List AEvent), EvInv st evs →
      EvInv (runLines chain st cs lines).1
        (evs ++ (runLines chain st cs lines).2.2.1) := by
  induction lines with
  | nil => intro st cs evs h; simpa [runLines] using h
  | cons l rest ih =>
      intro st cs evs h
      simp only [runLines]
      have hs := EvInv_stepLine chain st cs l h
      cases hl : stepLine chain st cs l with
      | abort st' cs' evsN m =>
          rw [hl] at hs
          simpa using hs
      | halt st' cs' evsN =>
          rw [hl] at hs
          simpa using hs
      | cont st' cs' evsN =>
          rw [hl] at hs
          have := ih st' cs' (evs ++ evsN) hs
          simpa [List.append_assoc] using this

/-- C3 (amended): every error-free run of `TranslateStream` emits the
lifecycle grammar — at most one `message_start` and only as the very
first event, then block groups in which every `content_block_start` is
matched by exactly one `content_block_stop` with indices in order,
then exactly one `message_delta` followed by exactly one `message_stop`
closing the stream. `message_start` is present exactly when the run
processed some chunk with a non-empty choice list (the `started` flag);
in particular a run over zero parseable chunks emits none. -/
theorem TranslateStream_lifecycle {χ : Type} (chain : Option (ChainFn χ))
    (cs₀ : χ) (modelLabel : String) (lines : List SSELine)
    (herr : (TranslateStream chain cs₀ modelLabel lines).err = none) :
    checkLifecycle (TranslateStream chain cs₀ modelLabel lines).events = true ∧
    countMessageStart (TranslateStream chain cs₀ modelLabel lines).events =
      (if (TranslateStream chain cs₀ modelLabel lines).state.started
        then 1 else 0) := by
  have hinv₀ : EvInv (NewStreamTranslator modelLabel) [] := by
    constructor
    · intro _
      exact ⟨rfl, rfl, rfl, rfl⟩
    · intro hcon
      simp [NewStreamTranslator] at hcon
  have hinv := EvInv_runLines chain lines (NewStreamTranslator modelLabel)
    cs₀ [] hinv₀
  rcases hr : runLines chain (NewStreamTranslator modelLabel) cs₀ lines with
    ⟨st, cs, evs, err, hl⟩
  rw [hr] at hinv
  simp only [List.nil_append] at hinv
  cases err with
  | some m =>
      exfalso
      unfold TranslateStream at herr
      rw [hr] at herr
      simp at herr
  | none =>
      have htr : TranslateStream chain cs₀ modelLabel lines =
          ⟨(finishStream st).1, evs ++ (finishStream st).2, none⟩ := by
        unfold TranslateStream
        rw [hr]
      rw [htr]
      obtain ⟨hcb_scan, hcb_started, hcb_open⟩ := closeCurrentBlock_scan st
      obtain ⟨hf, ht⟩ := hinv
      cases hstart : st.started with
      | false =>
          obtain ⟨he, htx, htl, hbi⟩ := hf hstart
          have hcb : closeCurrentBlock st = (st, []) := by
            unfold closeCurrentBlock
            rw [if_neg]
            simp [htx, htl]
          constructor
          · simp [he, finishStream, hcb, checkLifecycle, checkSeq]
          · simp [he, finishStream, hcb, countMessageStart, hstart]
      | true =>
          obtain ⟨msgid, toks, mid, he, hscan⟩ := ht hstart
          have hmidscan : scanBlocks 0 false (mid ++ (closeCurrentBlock st).2) =
              some ((closeCurrentBlock st).1.blockIndex, false) := by
            rw [scanBlocks_append, hscan]
            show scanBlocks st.blockIndex (blockOpen st) (closeCurrentBlock st).2 = _
            rw [hcb_scan, hcb_open]
          constructor
          · have hev : evs ++ (finishStream st).2 =
                AEvent.messageStart msgid toks ::
                  ((mid ++ (closeCurrentBlock st).2) ++
                    [.messageDelta
                        (mapFinishReason (closeCurrentBlock st).1.finishReason)
                        (match (closeCurrentBlock st).1.usage with
                          | some u => u.completionTokens | none => 0),
                      .messageStop]) := by
              simp [he, finishStream]
            rw [hev]
            simp only [checkLifecycle]
            rw [checkSeq_of_scan _ _ _ _ _ _ hmidscan]
            simp [checkSeq]
          · have hev : evs ++ (finishStream st).2 =
                (AEvent.messageStart msgid toks :: (mid ++ (closeCurrentBlock st).2))
                  ++ [.messageDelta
                        (mapFinishReason (closeCurrentBlock st).1.finishReason)
                        (match (closeCurrentBlock st).1.usage with
                          | some u => u.completionTokens | none => 0),
                      .messageStop] := by
              simp [he, finishStream]
            rw [hev, countMessageStart_append]
            have h₁ : countMessageStart
                (AEvent.messageStart msgid toks :: (mid ++ (closeCurrentBlock st).2))
                = 1 := by
              simp only [countMessageStart]
              rw [countMessageStart_of_scan _ _ _ _ hmidscan]
            have h₂ : (finishStream st).1.started = true := by
              simp only [finishStream]
              rw [hcb_started, hstart]
            rw [h₁, h₂]
            simp [countMessageStart]

/-- Counterexample to C3 as stated: the empty stream is processed to
completion without error, yet the emitted sequence is exactly
`message_delta` then `message_stop` — it contains zero `message_start`
events, not exactly one. -/
theorem TranslateStream_empty_stream_no_message_start :
    (TranslateStream (none : Option (ChainFn Unit)) () "m" []).err = none ∧
    (TranslateStream (none : Option (ChainFn Unit)) () "m" []).events =
      [.messageDelta "end_turn" 0, .messageStop] ∧
    countMessageStart
      (TranslateStream (none : Option (ChainFn Unit)) () "m" []).events = 0 :=
  ⟨rfl, rfl, rfl⟩

/-- Concrete demo stream for the C3 witness: a text chunk carrying the
message id, a skipped non-data line, a second text fragment, a tool call
with a follow-up argument fragment, a finish chunk and the `[DONE]`
sentinel. -/
def demoLines : List SSELine :=
  [ .dataLine "c1" (some ⟨"abc", [⟨"assistant", some "Hello", [], none⟩], none⟩),
    .notData,
    .dataLine "c2" (some ⟨"", [⟨"", some " world", [], none⟩], none⟩),
    .dataLine "c3" (some ⟨"", [⟨"", none,
      [⟨0, "call_1", "function", ⟨"read", ""⟩⟩], none⟩], none⟩),
    .dataLine "c4" (some ⟨"", [⟨"", none,
      [⟨0, "", "", ⟨"", "\x7b\"x\":1\x7d"⟩⟩], none⟩], none⟩),
    .dataLine "c5" (some ⟨"", [⟨"", none, [], some "tool_calls"⟩], none⟩),
    .dataLine "[DONE]" none ]

/-- Witness for the amended C3 on `demoLines`: the run completes without
error, passes the lifecycle grammar check, and emits exactly one
`message_start`. -/
theorem TranslateStream_lifecycle_witness :
    (TranslateStream (none : Option (ChainFn Unit)) () "lbl" demoLines).err
      = none ∧
    checkLifecycle
      (TranslateStream (none : Option (ChainFn Unit)) () "lbl" demoLines).events
      = true ∧
    countMessageStart
      (TranslateStream (none : Option (ChainFn Unit)) () "lbl" demoLines).events
      = 1 := by
  have h := TranslateStream_lifecycle (none : Option (ChainFn Unit)) ()
    "lbl" demoLines rfl
  exact ⟨rfl, h.1, h.2.trans (by rfl)⟩
